import Mathlib

/-!
# ramfs: an in-memory filesystem on top of go-fuse

A shallow embedding of `fuse.go`.

Conventions of the embedding.

* A `[]byte` is a `List UInt8`; `len` is `List.length`.  Go's `int` is taken to be
  64 bits wide (a 64-bit target), so `int(off)` is the identity on an `int64` and
  `uint64(len(s))`, `int(size)` lose nothing.  The length of a slice is far below
  `2^63` (it has to fit the address space), so `int(off)+len(data)` is computed in
  `Int` without wrap-around for `off ≤ 2*1024^3`.
* `uint32(len(data))` does lose bits for a slice of `2^32` bytes or more; it is
  modelled as `len(data) % 2^32`.
* A run-time panic (slice bounds out of range) is the result `none`.
* `time.Now()` is an argument `now` of the operation.
* Pointers `*fso` are addresses into a `Heap`; every `fso` is paired with the
  `Inode` the library keeps for it, which owns the children mapping.
-/

namespace Ramfs

/-! ## Statuses, constants, attributes -/

/-- The statuses of the library that the source returns. `OK` is the zero value. -/
inductive Status where
  | OK
  | ENOENT
  | EIO
  | ENOSYS
  deriving DecidableEq, Repr

/-- The literal `2*1024*1024*1024` of `Write` and `Truncate`. -/
def sizeCap : Nat := 2 * 1024 * 1024 * 1024

/-- The file-type bits `syscall.S_IFDIR`. -/
def S_IFDIR : Nat := 0o040000

/-- The file-type bits `syscall.S_IFREG`. -/
def S_IFREG : Nat := 0o100000

/-- The file-type bits `syscall.S_IFLNK`. -/
def S_IFLNK : Nat := 0o120000

/-- The library's `Owner` record. -/
structure Owner where
  Uid : Nat
  Gid : Nat
  deriving DecidableEq, Repr

/-- The fields of the library's `Attr` record that the source reads or writes. -/
structure Attr where
  Size : Nat
  Atime : Nat
  Mtime : Nat
  Ctime : Nat
  Mode : Nat
  Owner : Owner
  deriving DecidableEq, Repr

/-- Modelled from the spec: `Attr.SetTimes` of the library, absent from the sources;
a `nil` argument leaves the corresponding time unchanged. -/
def Attr.SetTimes (a : Attr) (access mod chstatus : Option Nat) : Attr :=
  { a with
    Atime := access.getD a.Atime
    Mtime := mod.getD a.Mtime
    Ctime := chstatus.getD a.Ctime }

/-! ## Slices -/

/-- Go's builtin `copy(dst, src)`: the first `min (len dst) (len src)` elements of
`dst` are overwritten by those of `src`; the result is the new `dst`. -/
def copy {α : Type} (dst src : List α) : List α :=
  src.take dst.length ++ dst.drop src.length

/-- Go's `make([]byte, n)`. -/
def makeBytes (n : Nat) : List UInt8 := List.replicate n 0

/-- The statement `copy(s[i:], src)`: the slice expression panics unless
`0 ≤ i ≤ len s`; otherwise the elements of `s` from `i` on are overwritten. -/
def copyAt {α : Type} (s : List α) (i : Int) (src : List α) : Option (List α) :=
  if 0 ≤ i ∧ i ≤ (s.length : Int) then
    some (s.take i.toNat ++ copy (s.drop i.toNat) src)
  else none

/-! ## Nodes -/

/-- The node type `fso`: content and attributes (the embedded `DefaultFsNode` is
the link to the `Inode`, kept in the heap cell). -/
structure fso where
  data : List UInt8
  info : Attr
  deriving DecidableEq, Repr

/-- The zero value `&fso{}`. -/
def fso.zero : fso := ⟨[], ⟨0, 0, 0, 0, 0, ⟨0, 0⟩⟩⟩

/-- Modelled from the spec: the library's `Inode`, absent from the sources, as far as
the source uses it: the tree element kept for one node, which for a directory owns
the children mapping from a name to the address of the child. -/
structure Inode where
  fsNode : fso
  isDir : Bool
  children : String → Option Nat

/-- The memory: the cell at every address, and the first address not yet handed out. -/
structure Heap where
  cell : Nat → Inode
  next : Nat

/-- The children mapping with no entry. -/
def noChildren : String → Option Nat := fun _ => none

/-- A memory in which nothing has been allocated. -/
def Heap.empty : Heap := ⟨fun _ => ⟨fso.zero, false, noChildren⟩, 0⟩

/-- Overwrite the cell at address `a`. -/
def Heap.set (h : Heap) (a : Nat) (c : Inode) : Heap :=
  { h with cell := fun b => if b = a then c else h.cell b }

/-- Overwrite the node stored at address `a` (an assignment through a `*fso`). -/
def Heap.setNode (h : Heap) (a : Nat) (x : fso) : Heap :=
  h.set a { h.cell a with fsNode := x }

/-- The node at address `a`. -/
def Heap.node (h : Heap) (a : Nat) : fso := (h.cell a).fsNode

/-- Modelled from the spec: the lookup of a name in the children mapping of the
directory at address `n` (the library's `Inode.GetChild`, absent from the sources). -/
def Heap.lookup (h : Heap) (n : Nat) (name : String) : Option Nat :=
  (h.cell n).children name

/-- Modelled from the spec: `Inode.AddChild` of the library, absent from the sources:
the mapping of the directory at `n` sends `name` to `child` afterwards. A nil
child (`none`) is stored as such, so that a lookup of `name` finds nothing. -/
def Inode.AddChild (h : Heap) (n : Nat) (name : String) (child : Option Nat) : Heap :=
  h.set n { h.cell n with
    children := fun k => if k = name then child else (h.cell n).children k }

/-- Modelled from the spec: `Inode.RmChild` of the library, absent from the sources:
the entry `name` is removed from the mapping of the directory at `n` and the child
it named is returned, nil (`none`) when there was no such entry. -/
def Inode.RmChild (h : Heap) (n : Nat) (name : String) : Heap × Option Nat :=
  match (h.cell n).children name with
  | none => (h, none)
  | some c =>
    (h.set n { h.cell n with
      children := fun k => if k = name then none else (h.cell n).children k }, some c)

/-- `newNode`: a fresh node with the times stamped and mode `S_IFDIR | 0700`; with a
parent, the owner is copied from it. The node is placed at the first free address,
together with the `Inode` that `parent.Inode().New(isdir, node)` creates for it
(for the root, the one the library creates at mount time). -/
def newNode (h : Heap) (parent : Option Nat) (isdir : Bool) (now : Nat) : Heap × Nat :=
  let node := fso.zero
  let node := { node with info := node.info.SetTimes (some now) (some now) (some now) }
  let node := { node with info := { node.info with Mode := S_IFDIR ||| 0o700 } }
  let node :=
    match parent with
    | some p => { node with info := { node.info with Owner := (h.node p).info.Owner } }
    | none => node
  ({ cell := fun b => if b = h.next then ⟨node, isdir, noChildren⟩ else h.cell b,
     next := h.next + 1 }, h.next)

/-! ## Content operations on one node -/

/-- `fso.Readlink`. -/
def fso.Readlink (n : fso) : fso × List UInt8 × Status :=
  (n, n.data, Status.OK)

/-- `fsoFile.Read`: the offset is clamped to the length, then `f.data[soff:]`. -/
def fsoFile.Read (f : fso) (_buf : List UInt8) (off : Int) :
    Option (fso × List UInt8 × Status) :=
  let soff : Int := off
  let soff : Int := if soff > (f.data.length : Int) then (f.data.length : Int) else soff
  if 0 ≤ soff ∧ soff ≤ (f.data.length : Int) then
    some (f, f.data.drop soff.toNat, Status.OK)
  else none

/-- `fsoFile.Write`. -/
def fsoFile.Write (n : fso) (data : List UInt8) (off : Int) :
    Option (fso × Nat × Status) :=
  if off > (sizeCap : Int) then
    some (n, 0, Status.EIO)
  else
    let grown : List UInt8 :=
      if off + (data.length : Int) > (n.data.length : Int) then
        copy (makeBytes (off + (data.length : Int)).toNat) n.data
      else n.data
    match copyAt grown off data with
    | none => none
    | some d =>
      some ({ n with data := d, info := { n.info with Size := d.length } },
        data.length % 2 ^ 32, Status.OK)

/-- `fso.GetAttr`: the record copied out. -/
def fso.GetAttr (n : fso) : fso × Attr × Status :=
  (n, n.info, Status.OK)

/-- `fso.Truncate`. -/
def fso.Truncate (n : fso) (size : Nat) : fso × Status :=
  if size > sizeCap then
    (n, Status.EIO)
  else
    let d : List UInt8 :=
      if size > n.data.length then copy (makeBytes size) n.data
      else n.data.take size
    ({ n with data := d, info := { n.info with Size := d.length } }, Status.OK)

/-- `fso.Utimens`. -/
def fso.Utimens (n : fso) (atime mtime : Option Nat) (now : Nat) : fso × Status :=
  ({ n with info := n.info.SetTimes atime mtime (some now) }, Status.OK)

/-- `fso.Chmod`; `^` is Go's exclusive or. -/
def fso.Chmod (n : fso) (perms : Nat) (now : Nat) : fso × Status :=
  let info := { n.info with Mode := (n.info.Mode ^^^ 0o7777) ||| perms }
  ({ n with info := info.SetTimes none none (some now) }, Status.OK)

/-- `fso.Chown`. -/
def fso.Chown (n : fso) (uid gid : Nat) (now : Nat) : fso × Status :=
  let info := { n.info with Owner := ⟨uid, gid⟩ }
  ({ n with info := info.SetTimes none none (some now) }, Status.OK)

/-! ## Handle-level operations (`fsoFile` wraps the node) -/

/-- `fsoFile.GetAttr`. -/
def fsoFile.GetAttr (f : fso) : fso × Attr × Status := f.GetAttr

/-- `fsoFile.Utimens`. -/
def fsoFile.Utimens (f : fso) (_atime _mtime : Option Nat) : fso × Status :=
  (f, Status.ENOSYS)

/-- `fsoFile.Truncate`. -/
def fsoFile.Truncate (f : fso) (_size : Nat) : fso × Status := (f, Status.ENOSYS)

/-- `fsoFile.Chown`. -/
def fsoFile.Chown (f : fso) (_uid _gid : Nat) : fso × Status := (f, Status.ENOSYS)

/-- `fsoFile.Chmod`. -/
def fsoFile.Chmod (f : fso) (_perms : Nat) : fso × Status := (f, Status.ENOSYS)

/-- `fsoFile.Fsync`. -/
def fsoFile.Fsync (f : fso) (_flags : Int) : fso × Status := (f, Status.ENOSYS)

/-- `fsoFile.Flush`. -/
def fsoFile.Flush (f : fso) : fso × Status := (f, Status.OK)

/-! ## Tree operations on the directory at address `n` -/

/-- `fso.Mkdir`. -/
def fso.Mkdir (h : Heap) (n : Nat) (name : String) (mode : Nat) (now : Nat) :
    Heap × Nat × Status :=
  let (h, ch) := newNode h (some n) true now
  let h := h.setNode ch
    { h.node ch with info := { (h.node ch).info with Mode := mode ||| S_IFDIR } }
  let h := Inode.AddChild h n name (some ch)
  (h, ch, Status.OK)

/-- `fso.Unlink`. -/
def fso.Unlink (h : Heap) (n : Nat) (name : String) : Heap × Status :=
  let (h, ch) := Inode.RmChild h n name
  if ch = none then
    (h, Status.ENOENT)
  else
    (h, Status.OK)

/-- `fso.Rmdir`. -/
def fso.Rmdir (h : Heap) (n : Nat) (name : String) : Heap × Status :=
  fso.Unlink h n name

/-- `fso.Symlink`; `[]byte(content)` is the UTF-8 encoding held by the string. -/
def fso.Symlink (h : Heap) (n : Nat) (name : String) (content : String) (now : Nat) :
    Heap × Nat × Status :=
  let (h, ch) := newNode h (some n) false now
  let h := h.setNode ch
    { h.node ch with info := { (h.node ch).info with Mode := S_IFLNK ||| 0o777 } }
  let h := h.setNode ch { h.node ch with data := content.toUTF8.data.toList }
  let h := Inode.AddChild h n name (some ch)
  (h, ch, Status.OK)

/-- `fso.Rename`. -/
def fso.Rename (h : Heap) (n : Nat) (oldName : String) (newParent : Nat)
    (newName : String) : Heap × Status :=
  let (h, ch) := Inode.RmChild h n oldName
  let (h, _) := Inode.RmChild h newParent newName
  let h := Inode.AddChild h newParent newName ch
  (h, Status.OK)

/-- `fso.Link`; the named result `code` is never assigned, so it is the zero value. -/
def fso.Link (h : Heap) (n : Nat) (name : String) (existing : Nat) :
    Heap × Nat × Status :=
  let h := Inode.AddChild h n name (some existing)
  (h, existing, Status.OK)

/-- `fso.newFile`: the handle is the address of the node it wraps. -/
def fso.newFile (n : Nat) : Nat := n

/-- `fso.Create`. -/
def fso.Create (h : Heap) (n : Nat) (name : String) (_flags : Nat) (mode : Nat)
    (now : Nat) : Heap × Nat × Nat × Status :=
  let (h, ch) := newNode h (some n) false now
  let h := h.setNode ch
    { h.node ch with info := { (h.node ch).info with Mode := mode ||| S_IFREG } }
  let h := Inode.AddChild h n name (some ch)
  (h, fso.newFile ch, ch, Status.OK)

/-- `fso.Open`. -/
def fso.Open (h : Heap) (n : Nat) (_flags : Nat) : Heap × Nat × Status :=
  (h, fso.newFile n, Status.OK)

/-! ## The filesystem -/

/-- The type `FS`: the memory and the address of the root. -/
structure FS where
  heap : Heap
  root : Nat

/-- `FS.Init`; `getuid` and `getgid` are what `os.Getuid()` and `os.Getgid()` return,
and `uint32(uid)` keeps the low 32 bits. -/
def FS.Init (uid gid : Int) (getuid getgid : Int) (now : Nat) : FS :=
  let (h, root) := newNode Heap.empty none true now
  let uid := if uid = -1 then getuid else uid
  let gid := if gid = -1 then getgid else gid
  let h := h.setNode root
    { h.node root with info := { (h.node root).info with
        Owner := { (h.node root).info.Owner with Uid := (uid % 2 ^ 32).toNat } } }
  let h := h.setNode root
    { h.node root with info := { (h.node root).info with
        Owner := { (h.node root).info.Owner with Gid := (gid % 2 ^ 32).toNat } } }
  ⟨h, root⟩

/-- The function `New`. -/
def New (uid gid : Int) (getuid getgid : Int) (now : Nat) : FS :=
  FS.Init uid gid getuid getgid now

/-- `FS.Root`. -/
def FS.Root (fs : FS) : Nat := fs.root

/-- The predicate of the data model: the size attribute is the length of the content. -/
def SizeInSync (x : fso) : Prop := x.info.Size = x.data.length

instance (x : fso) : Decidable (SizeInSync x) := by
  unfold SizeInSync
  infer_instance

/-- A small tree built with the operations: the root directory (address 0, owner
1000/1000) holds the directory `a` (address 1) and the regular file `f` (address 3);
`a` holds the directory `b` (address 2). -/
def sampleTree : Heap :=
  let fs := New 1000 1000 0 0 0
  let h := (fso.Mkdir fs.heap fs.Root "a" 0o755 1).1
  let h := (fso.Mkdir h 1 "b" 0o755 2).1
  (fso.Create h fs.Root "f" 0 0o644 3).1

/-! ## Calls through a pointer

A method with receiver `*fso` (or the handle `fsoFile`, which wraps that pointer) acts on
the node stored at the address: the node is read from the memory, the operation is
applied, and the result is stored back at the same address. -/

/-- `fsoFile.Write` called on the handle of the node at address `a`. -/
def Heap.writeAt (h : Heap) (a : Nat) (data : List UInt8) (off : Int) :
    Option (Heap × Nat × Status) :=
  match fsoFile.Write (h.node a) data off with
  | none => none
  | some (x, cnt, st) => some (h.setNode a x, cnt, st)

/-- `fso.Truncate` called on the node at address `a`. -/
def Heap.truncateAt (h : Heap) (a : Nat) (size : Nat) : Heap × Status :=
  (h.setNode a ((h.node a).Truncate size).1, ((h.node a).Truncate size).2)

/-- `fsoFile.Read` called on the handle of the node at address `a`. -/
def Heap.readAt (h : Heap) (a : Nat) (buf : List UInt8) (off : Int) :
    Option (List UInt8 × Status) :=
  match fsoFile.Read (h.node a) buf off with
  | none => none
  | some (_, bytes, st) => some (bytes, st)

/-- `fso.GetAttr` called on the node at address `a`. -/
def Heap.getAttrAt (h : Heap) (a : Nat) : Attr × Status :=
  ((h.node a).GetAttr.2.1, (h.node a).GetAttr.2.2)

/-- The slice expression `s[0:k]` with its bounds check: a panic (`none`) unless
`k ≤ len s`. -/
def sliceTo {α : Type} (s : List α) (k : Nat) : Option (List α) :=
  if k ≤ s.length then some (s.take k) else none

/-- `fso.Truncate` with the bounds check of `n.data[0:int(size)]` made explicit: `none`
is a panic. -/
def fso.TruncateChecked (n : fso) (size : Nat) : Option (fso × Status) :=
  if size > sizeCap then
    some (n, Status.EIO)
  else
    let cut : Option (List UInt8) :=
      if size > n.data.length then some (copy (makeBytes size) n.data)
      else sliceTo n.data size
    match cut with
    | none => none
    | some d => some ({ n with data := d, info := { n.info with Size := d.length } }, Status.OK)

/-- The content that `fsoFile.Write` copies the data into: the reallocated buffer in the
growing case, the old one otherwise. -/
def fsoFile.writeTarget (n : fso) (data : List UInt8) (off : Int) : List UInt8 :=
  if off + (data.length : Int) > (n.data.length : Int) then
    copy (makeBytes (off + (data.length : Int)).toNat) n.data
  else n.data

/-- The content after a successful `Write` of `d` at offset `off` over the content `s`,
in closed form: `s` padded with zeros up to `off + len d` when it is shorter, with the
bytes from `off` on replaced by `d`. -/
def overwrite (s : List UInt8) (off : Nat) (d : List UInt8) : List UInt8 :=
  (s ++ List.replicate (off + d.length - s.length) 0).take off ++ (d ++ s.drop (off + d.length))

/-! ## Slice lemmas -/

theorem copy_makeBytes (c : List UInt8) (m : Nat) (h : c.length ≤ m) :
    copy (makeBytes m) c = c ++ List.replicate (m - c.length) 0 := by
  unfold copy makeBytes
  rw [List.length_replicate, List.take_of_length_le h, List.drop_replicate]

theorem copy_of_length_le {α : Type} (dst src : List α) (h : src.length ≤ dst.length) :
    copy dst src = src ++ dst.drop src.length := by
  unfold copy
  rw [List.take_of_length_le h]

theorem copyAt_of_le {α : Type} (s : List α) (off : Nat) (src : List α)
    (h : off + src.length ≤ s.length) :
    copyAt s (off : Int) src = some (s.take off ++ (src ++ s.drop (off + src.length))) := by
  have hoff : off ≤ s.length := by omega
  have hlen : src.length ≤ (s.drop off).length := by
    rw [List.length_drop]; omega
  unfold copyAt
  rw [if_pos ⟨Int.ofNat_nonneg off, Int.ofNat_le.mpr hoff⟩, Int.toNat_ofNat,
    copy_of_length_le _ _ hlen, List.drop_drop]

theorem copyAt_neg {α : Type} (s : List α) (i : Int) (src : List α) (h : i < 0) :
    copyAt s i src = none := by
  unfold copyAt
  rw [if_neg]
  omega

/-! ## What `Write`, `Truncate` and `Read` compute -/

/-- `Write` at an offset within the cap whose end lies beyond the content. -/
theorem Write_eq_of_grow (n : fso) (data : List UInt8) (off : Nat)
    (hcap : off ≤ sizeCap) (hgrow : off + data.length > n.data.length) :
    fsoFile.Write n data (off : Int) =
      some ({ n with
          data := (n.data ++ List.replicate (off + data.length - n.data.length) 0).take off
            ++ data
          info := { n.info with Size := off + data.length } },
        data.length % 2 ^ 32, Status.OK) := by
  have h1 : ¬ ((off : Int) > (sizeCap : Int)) := by omega
  have h2 : (off : Int) + (data.length : Int) > (n.data.length : Int) := by omega
  have h3 : ((off : Int) + (data.length : Int)).toNat = off + data.length := by omega
  have hlen : (n.data ++ List.replicate (off + data.length - n.data.length) (0 : UInt8)).length
      = off + data.length := by
    rw [List.length_append, List.length_replicate]; omega
  unfold fsoFile.Write
  rw [if_neg h1]
  simp only [if_pos h2, h3]
  rw [copy_makeBytes _ _ (by omega), copyAt_of_le _ _ _ (by omega)]
  have hd : List.drop (off + data.length)
      (n.data ++ List.replicate (off + data.length - n.data.length) (0 : UInt8)) = [] :=
    List.drop_eq_nil_of_le (by rw [hlen])
  have hmin : min off (off + data.length) = off := Nat.min_eq_left (Nat.le_add_right _ _)
  simp only [hd, List.append_nil, List.length_append, List.length_take, hlen, hmin]

/-- `Write` at an offset whose end lies within the content. -/
theorem Write_eq_of_within (n : fso) (data : List UInt8) (off : Nat)
    (hcap : off ≤ sizeCap) (hin : off + data.length ≤ n.data.length) :
    fsoFile.Write n data (off : Int) =
      some ({ n with
          data := n.data.take off ++ (data ++ n.data.drop (off + data.length))
          info := { n.info with Size := n.data.length } },
        data.length % 2 ^ 32, Status.OK) := by
  have h1 : ¬ ((off : Int) > (sizeCap : Int)) := by omega
  have h2 : ¬ ((off : Int) + (data.length : Int) > (n.data.length : Int)) := by omega
  unfold fsoFile.Write
  rw [if_neg h1]
  simp only [if_neg h2]
  rw [copyAt_of_le _ _ _ hin]
  have hmin : min off n.data.length = off := Nat.min_eq_left (by omega)
  have hsz : off + (data.length + (n.data.length - (off + data.length))) = n.data.length := by
    omega
  simp only [List.length_append, List.length_take, List.length_drop, hmin, hsz]

theorem length_take_padded (s : List UInt8) (k off : Nat) (hk : off ≤ s.length + k) :
    ((s ++ List.replicate k (0 : UInt8)).take off).length = off := by
  rw [List.length_take, List.length_append, List.length_replicate]
  exact Nat.min_eq_left hk

theorem getElem?_padded_old (s data : List UInt8) (k off i : Nat) (hk : off ≤ s.length + k)
    (h1 : i < off) (h2 : i < s.length) :
    ((s ++ List.replicate k (0 : UInt8)).take off ++ data)[i]? = s[i]? := by
  rw [List.getElem?_append_left (by rw [length_take_padded s k off hk]; exact h1),
    List.getElem?_take_of_lt h1, List.getElem?_append_left h2]

theorem getElem?_padded_gap (s data : List UInt8) (k off i : Nat) (hk : off ≤ s.length + k)
    (h1 : s.length ≤ i) (h2 : i < off) :
    ((s ++ List.replicate k (0 : UInt8)).take off ++ data)[i]? = some 0 := by
  rw [List.getElem?_append_left (by rw [length_take_padded s k off hk]; exact h2),
    List.getElem?_take_of_lt h2, List.getElem?_append_right h1,
    List.getElem?_replicate_of_lt (by omega)]

theorem getElem?_padded_data (s data : List UInt8) (k off j : Nat) (hk : off ≤ s.length + k) :
    ((s ++ List.replicate k (0 : UInt8)).take off ++ data)[off + j]? = data[j]? := by
  rw [List.getElem?_append_right (by rw [length_take_padded s k off hk]; omega),
    length_take_padded s k off hk, Nat.add_sub_cancel_left]

theorem getElem?_patched_data (s data : List UInt8) (off j : Nat) (hoff : off ≤ s.length)
    (hj : j < data.length) :
    (s.take off ++ (data ++ s.drop (off + data.length)))[off + j]? = data[j]? := by
  have hl : (s.take off).length = off := by
    rw [List.length_take]; exact Nat.min_eq_left hoff
  rw [List.getElem?_append_right (by rw [hl]; omega), hl, Nat.add_sub_cancel_left,
    List.getElem?_append_left hj]

theorem getElem?_patched_before (s data : List UInt8) (off i : Nat) (hoff : off ≤ s.length)
    (hi : i < off) :
    (s.take off ++ (data ++ s.drop (off + data.length)))[i]? = s[i]? := by
  have hl : (s.take off).length = off := by
    rw [List.length_take]; exact Nat.min_eq_left hoff
  rw [List.getElem?_append_left (by rw [hl]; exact hi), List.getElem?_take_of_lt hi]

theorem getElem?_patched_after (s data : List UInt8) (off i : Nat) (hoff : off ≤ s.length)
    (hi : off + data.length ≤ i) :
    (s.take off ++ (data ++ s.drop (off + data.length)))[i]? = s[i]? := by
  have hl : (s.take off).length = off := by
    rw [List.length_take]; exact Nat.min_eq_left hoff
  rw [List.getElem?_append_right (by rw [hl]; omega), hl,
    List.getElem?_append_right (by omega), List.getElem?_drop]
  congr 1
  omega

/-- `Write` at an offset beyond the cap. -/
theorem Write_eq_of_over_cap (n : fso) (data : List UInt8) (off : Int)
    (h : off > (sizeCap : Int)) : fsoFile.Write n data off = some (n, 0, Status.EIO) := by
  unfold fsoFile.Write
  rw [if_pos h]

/-- `Truncate` to a size beyond the cap. -/
theorem Truncate_eq_of_over_cap (n : fso) (size : Nat) (h : size > sizeCap) :
    n.Truncate size = (n, Status.EIO) := by
  unfold fso.Truncate
  rw [if_pos h]

/-- `Truncate` to a size within the cap and above the length. -/
theorem Truncate_eq_of_grow (n : fso) (size : Nat) (hcap : size ≤ sizeCap)
    (hgrow : size > n.data.length) :
    n.Truncate size =
      ({ n with
          data := n.data ++ List.replicate (size - n.data.length) 0
          info := { n.info with Size := size } }, Status.OK) := by
  have hlen : (n.data ++ List.replicate (size - n.data.length) (0 : UInt8)).length = size := by
    rw [List.length_append, List.length_replicate]; omega
  unfold fso.Truncate
  rw [if_neg (by omega)]
  simp only [if_pos hgrow]
  rw [copy_makeBytes _ _ (by omega), hlen]

/-- `Truncate` to a size within the length. -/
theorem Truncate_eq_of_cut (n : fso) (size : Nat) (hcap : size ≤ sizeCap)
    (hcut : size ≤ n.data.length) :
    n.Truncate size =
      ({ n with data := n.data.take size, info := { n.info with Size := size } },
        Status.OK) := by
  have hlen : (n.data.take size).length = size := by
    rw [List.length_take]; exact Nat.min_eq_left hcut
  unfold fso.Truncate
  rw [if_neg (by omega)]
  simp only [if_neg (show ¬ size > n.data.length by omega), hlen]

/-- `Read` at an offset that is not negative. -/
theorem Read_eq (f : fso) (buf : List UInt8) (off : Nat) :
    fsoFile.Read f buf (off : Int) = some (f, f.data.drop (min off f.data.length), Status.OK) := by
  unfold fsoFile.Read
  by_cases h : off ≤ f.data.length
  · have h1 : ¬ ((off : Int) > (f.data.length : Int)) := by omega
    simp only [if_neg h1]
    rw [if_pos ⟨Int.ofNat_nonneg off, by omega⟩, Int.toNat_ofNat, Nat.min_eq_left h]
  · have h1 : (off : Int) > (f.data.length : Int) := by omega
    simp only [if_pos h1]
    rw [if_pos ⟨Int.ofNat_nonneg _, le_refl _⟩, Int.toNat_ofNat, Nat.min_eq_right (by omega)]

/-! ## What the tree operations compute -/

/-- The children mapping without the entry `name`. -/
theorem RmChild_eq_of_absent (h : Heap) (n : Nat) (name : String)
    (ha : h.lookup n name = none) : Inode.RmChild h n name = (h, none) := by
  unfold Heap.lookup at ha
  unfold Inode.RmChild
  rw [ha]

theorem RmChild_eq_of_present (h : Heap) (n : Nat) (name : String) (c : Nat)
    (hp : h.lookup n name = some c) :
    Inode.RmChild h n name =
      (h.set n { h.cell n with
        children := fun k => if k = name then none else (h.cell n).children k }, some c) := by
  unfold Heap.lookup at hp
  unfold Inode.RmChild
  rw [hp]

theorem lookup_set (h : Heap) (n : Nat) (x : Inode) (d : Nat) (k : String) :
    (h.set n x).lookup d k = if d = n then x.children k else h.lookup d k := by
  unfold Heap.lookup Heap.set
  by_cases hd : d = n
  · simp only [if_pos hd]
  · simp only [if_neg hd]

theorem node_set (h : Heap) (n : Nat) (x : Inode) (a : Nat) :
    (h.set n x).node a = if a = n then x.fsNode else h.node a := by
  unfold Heap.node Heap.set
  by_cases hd : a = n
  · simp only [if_pos hd]
  · simp only [if_neg hd]

theorem lookup_AddChild (h : Heap) (n : Nat) (name : String) (child : Option Nat)
    (d : Nat) (k : String) :
    (Inode.AddChild h n name child).lookup d k =
      if d = n then (if k = name then child else h.lookup n k) else h.lookup d k := by
  unfold Inode.AddChild
  rw [lookup_set]
  rfl

theorem node_AddChild (h : Heap) (n : Nat) (name : String) (child : Option Nat) (a : Nat) :
    (Inode.AddChild h n name child).node a = h.node a := by
  unfold Inode.AddChild
  rw [node_set]
  by_cases ha : a = n
  · rw [if_pos ha, ha]
    rfl
  · rw [if_neg ha]

theorem RmChild_snd (h : Heap) (n : Nat) (name : String) :
    (Inode.RmChild h n name).2 = h.lookup n name := by
  cases hl : h.lookup n name with
  | none => rw [RmChild_eq_of_absent h n name hl]
  | some c => rw [RmChild_eq_of_present h n name c hl]

theorem lookup_RmChild (h : Heap) (n : Nat) (name : String) (d : Nat) (k : String) :
    (Inode.RmChild h n name).1.lookup d k =
      if d = n ∧ k = name then none else h.lookup d k := by
  cases hl : h.lookup n name with
  | none =>
    rw [RmChild_eq_of_absent h n name hl]
    by_cases hc : d = n ∧ k = name
    · rw [if_pos hc, hc.1, hc.2]
      exact hl
    · rw [if_neg hc]
  | some c =>
    rw [RmChild_eq_of_present h n name c hl]
    show (Heap.set h n _).lookup d k = _
    rw [lookup_set]
    by_cases hd : d = n
    · rw [if_pos hd]
      show (if k = name then none else (h.cell n).children k) = _
      by_cases hk : k = name
      · rw [if_pos hk, if_pos ⟨hd, hk⟩]
      · rw [if_neg hk, if_neg (fun hc => hk hc.2), hd]
        rfl
    · rw [if_neg hd, if_neg (fun hc => hd hc.1)]

theorem node_RmChild (h : Heap) (n : Nat) (name : String) (a : Nat) :
    (Inode.RmChild h n name).1.node a = h.node a := by
  cases hl : h.lookup n name with
  | none => rw [RmChild_eq_of_absent h n name hl]
  | some c =>
    rw [RmChild_eq_of_present h n name c hl]
    show (Heap.set h n _).node a = _
    rw [node_set]
    by_cases ha : a = n
    · rw [if_pos ha, ha]
      rfl
    · rw [if_neg ha]

/-- `Rename` as the composition of its three calls. -/
theorem Rename_eq (h : Heap) (n : Nat) (oldName : String) (d : Nat) (newName : String) :
    fso.Rename h n oldName d newName =
      (Inode.AddChild (Inode.RmChild (Inode.RmChild h n oldName).1 d newName).1 d newName
        (Inode.RmChild h n oldName).2, Status.OK) := rfl

theorem lookup_setNode (h : Heap) (a : Nat) (x : fso) (d : Nat) (k : String) :
    (h.setNode a x).lookup d k = h.lookup d k := by
  unfold Heap.setNode
  rw [lookup_set]
  by_cases hd : d = a
  · rw [if_pos hd, hd]
    rfl
  · rw [if_neg hd]

theorem node_setNode (h : Heap) (a : Nat) (x : fso) (b : Nat) :
    (h.setNode a x).node b = if b = a then x else h.node b := by
  unfold Heap.setNode
  rw [node_set]

theorem lookup_newNode (h : Heap) (p : Option Nat) (b : Bool) (now : Nat) (d : Nat)
    (k : String) :
    (newNode h p b now).1.lookup d k = if d = h.next then none else h.lookup d k := by
  unfold newNode Heap.lookup
  by_cases hd : d = h.next
  · simp only [if_pos hd]
    rfl
  · simp only [if_neg hd]

theorem node_newNode_other (h : Heap) (p : Option Nat) (b : Bool) (now : Nat) (a : Nat)
    (ha : a ≠ h.next) : (newNode h p b now).1.node a = h.node a := by
  unfold newNode Heap.node
  simp only [if_neg ha]

/-- The node that `newNode` places at the first free address. -/
theorem node_newNode (h : Heap) (n : Nat) (b : Bool) (now : Nat) :
    (newNode h (some n) b now).1.node h.next =
      ⟨[], ⟨0, now, now, now, S_IFDIR ||| 0o700, (h.node n).info.Owner⟩⟩ := by
  unfold newNode Heap.node
  simp only [if_pos rfl]
  rfl

/-- `Mkdir` as the composition of its calls. -/
theorem Mkdir_eq (h : Heap) (n : Nat) (name : String) (mode now : Nat) :
    fso.Mkdir h n name mode now =
      (Inode.AddChild
        ((newNode h (some n) true now).1.setNode h.next
          { (newNode h (some n) true now).1.node h.next with
            info := { ((newNode h (some n) true now).1.node h.next).info with
              Mode := mode ||| S_IFDIR } })
        n name (some h.next), h.next, Status.OK) := rfl

/-- `Create` as the composition of its calls. -/
theorem Create_eq (h : Heap) (n : Nat) (name : String) (flags mode now : Nat) :
    fso.Create h n name flags mode now =
      (Inode.AddChild
        ((newNode h (some n) false now).1.setNode h.next
          { (newNode h (some n) false now).1.node h.next with
            info := { ((newNode h (some n) false now).1.node h.next).info with
              Mode := mode ||| S_IFREG } })
        n name (some h.next), h.next, h.next, Status.OK) := rfl

/-- The node that `Mkdir` creates. -/
theorem Mkdir_node (h : Heap) (n : Nat) (name : String) (mode now : Nat) :
    (fso.Mkdir h n name mode now).1.node h.next =
      ⟨[], ⟨0, now, now, now, mode ||| S_IFDIR, (h.node n).info.Owner⟩⟩ := by
  rw [Mkdir_eq]
  dsimp only
  rw [node_AddChild, node_setNode, if_pos rfl, node_newNode]

/-- The node that `Create` creates. -/
theorem Create_node (h : Heap) (n : Nat) (name : String) (flags mode now : Nat) :
    (fso.Create h n name flags mode now).1.node h.next =
      ⟨[], ⟨0, now, now, now, mode ||| S_IFREG, (h.node n).info.Owner⟩⟩ := by
  rw [Create_eq]
  dsimp only
  rw [node_AddChild, node_setNode, if_pos rfl, node_newNode]

/-- `Symlink` as the composition of its calls. -/
theorem Symlink_eq (h : Heap) (n : Nat) (name content : String) (now : Nat) :
    fso.Symlink h n name content now =
      (Inode.AddChild
        (((newNode h (some n) false now).1.setNode h.next
          { (newNode h (some n) false now).1.node h.next with
            info := { ((newNode h (some n) false now).1.node h.next).info with
              Mode := S_IFLNK ||| 0o777 } }).setNode h.next
          { (((newNode h (some n) false now).1.setNode h.next
              { (newNode h (some n) false now).1.node h.next with
                info := { ((newNode h (some n) false now).1.node h.next).info with
                  Mode := S_IFLNK ||| 0o777 } }).node h.next) with
            data := content.toUTF8.data.toList })
        n name (some h.next), h.next, Status.OK) := rfl

/-- The node that `Symlink` creates. -/
theorem Symlink_node (h : Heap) (n : Nat) (name content : String) (now : Nat) :
    (fso.Symlink h n name content now).1.node h.next =
      ⟨content.toUTF8.data.toList,
        ⟨0, now, now, now, S_IFLNK ||| 0o777, (h.node n).info.Owner⟩⟩ := by
  rw [Symlink_eq]
  dsimp only
  rw [node_AddChild, node_setNode, if_pos rfl, node_setNode, if_pos rfl, node_newNode]

/-- The children mappings after `Mkdir`. -/
theorem Mkdir_lookup (h : Heap) (n : Nat) (name : String) (mode now : Nat) (d : Nat)
    (k : String) :
    (fso.Mkdir h n name mode now).1.lookup d k =
      if d = n then
        (if k = name then some h.next else if n = h.next then none else h.lookup n k)
      else if d = h.next then none else h.lookup d k := by
  rw [Mkdir_eq]
  dsimp only
  rw [lookup_AddChild, lookup_setNode, lookup_setNode, lookup_newNode, lookup_newNode]

/-- The children mappings after `Create`. -/
theorem Create_lookup (h : Heap) (n : Nat) (name : String) (flags mode now : Nat) (d : Nat)
    (k : String) :
    (fso.Create h n name flags mode now).1.lookup d k =
      if d = n then
        (if k = name then some h.next else if n = h.next then none else h.lookup n k)
      else if d = h.next then none else h.lookup d k := by
  rw [Create_eq]
  dsimp only
  rw [lookup_AddChild, lookup_setNode, lookup_setNode, lookup_newNode, lookup_newNode]

/-- The children mappings after `Symlink`. -/
theorem Symlink_lookup (h : Heap) (n : Nat) (name content : String) (now : Nat) (d : Nat)
    (k : String) :
    (fso.Symlink h n name content now).1.lookup d k =
      if d = n then
        (if k = name then some h.next else if n = h.next then none else h.lookup n k)
      else if d = h.next then none else h.lookup d k := by
  rw [Symlink_eq]
  dsimp only
  rw [lookup_AddChild, lookup_setNode, lookup_setNode, lookup_setNode, lookup_setNode,
    lookup_newNode, lookup_newNode]

theorem Unlink_eq_of_absent (h : Heap) (n : Nat) (name : String)
    (ha : h.lookup n name = none) : fso.Unlink h n name = (h, Status.ENOENT) := by
  unfold fso.Unlink
  rw [RmChild_eq_of_absent h n name ha]
  rfl

theorem Unlink_eq_of_present (h : Heap) (n : Nat) (name : String) (c : Nat)
    (hp : h.lookup n name = some c) :
    fso.Unlink h n name =
      (h.set n { h.cell n with
        children := fun k => if k = name then none else (h.cell n).children k },
        Status.OK) := by
  unfold fso.Unlink
  rw [RmChild_eq_of_present h n name c hp]
  rfl

/-! ## C1: a write that extends the content -/

/-- C1, as stated, fails on the byte count: the content is empty, the offset is 0 and the
data are `2^32` zero bytes, so the call is within the claim, but the count returned is
`uint32(len(data)) = 0`, not `len(data)`. -/
theorem Write_extends_count_counterexample :
    ((0 : Nat) ≤ sizeCap ∧
      0 + (List.replicate (2 ^ 32) (0 : UInt8)).length
        > (fso.mk [] ⟨0, 0, 0, 0, 0o100644, ⟨0, 0⟩⟩).data.length) ∧
    ∃ n cnt,
      fsoFile.Write (fso.mk [] ⟨0, 0, 0, 0, 0o100644, ⟨0, 0⟩⟩)
        (List.replicate (2 ^ 32) (0 : UInt8)) ((0 : Nat) : Int) = some (n, cnt, Status.OK) ∧
      cnt = 0 ∧ cnt ≠ (List.replicate (2 ^ 32) (0 : UInt8)).length := by
  have hg : 0 + (List.replicate (2 ^ 32) (0 : UInt8)).length
      > (fso.mk [] ⟨0, 0, 0, 0, 0o100644, ⟨0, 0⟩⟩).data.length := by
    rw [List.length_replicate]
    exact Nat.pos_of_ne_zero (by decide)
  refine ⟨⟨Nat.zero_le _, hg⟩, _, _, Write_eq_of_grow _ _ 0 (Nat.zero_le _) hg, ?_, ?_⟩
  · rw [List.length_replicate]
    exact Nat.mod_self _
  · rw [List.length_replicate, Nat.mod_self]
    decide

/-- C1, amended: for every content `c`, every offset `0 ≤ off ≤ 2*1024^3` and every data
with `off + len(data) > len(c)`, `Write` returns `(len(data) mod 2^32, OK)`, which is
`(len(data), OK)` whenever `len(data) < 2^32`, and leaves a content of length
`off + len(data)` whose bytes before `min(off, len(c))` are the old ones, whose bytes
in `[len(c), off)` are zero and whose bytes in `[off, off+len(data))` are `data`; the
size attribute is `off + len(data)`. -/
theorem Write_extends (n : fso) (data : List UInt8) (off : Nat)
    (hcap : off ≤ sizeCap) (hgrow : off + data.length > n.data.length) :
    ∃ n', fsoFile.Write n data (off : Int) = some (n', data.length % 2 ^ 32, Status.OK) ∧
      (data.length < 2 ^ 32 →
        fsoFile.Write n data (off : Int) = some (n', data.length, Status.OK)) ∧
      n'.data.length = off + data.length ∧
      (∀ i, i < min off n.data.length → n'.data[i]? = n.data[i]?) ∧
      (∀ i, n.data.length ≤ i → i < off → n'.data[i]? = some 0) ∧
      (∀ j, j < data.length → n'.data[off + j]? = data[j]?) ∧
      n'.info.Size = off + data.length := by
  have hk : off ≤ n.data.length + (off + data.length - n.data.length) := by omega
  refine ⟨_, Write_eq_of_grow n data off hcap hgrow, ?_, ?_, ?_, ?_, ?_, rfl⟩
  · intro hlt
    rw [Write_eq_of_grow n data off hcap hgrow, Nat.mod_eq_of_lt hlt]
  · show ((n.data ++ List.replicate (off + data.length - n.data.length) (0 : UInt8)).take off
      ++ data).length = off + data.length
    rw [List.length_append, length_take_padded _ _ _ hk]
  · intro i hi
    exact getElem?_padded_old _ _ _ _ _ hk (by omega) (by omega)
  · intro i h1 h2
    exact getElem?_padded_gap _ _ _ _ _ hk h1 h2
  · intro j _
    exact getElem?_padded_data _ _ _ _ _ hk

/-- C1, amended, at content `[1,2,3]`, offset 5 and data `[9,9]`. -/
theorem Write_extends_witness :
    ∃ n', fsoFile.Write ⟨[1, 2, 3], ⟨3, 0, 0, 0, 0o100644, ⟨0, 0⟩⟩⟩ [9, 9] ((5 : Nat) : Int)
        = some (n', 2 % 2 ^ 32, Status.OK) ∧ n'.data = [1, 2, 3, 0, 0, 9, 9] ∧
        n'.info.Size = 7 := by
  obtain ⟨n', h, -, -, -, -, -, hs⟩ :=
    Write_extends ⟨[1, 2, 3], ⟨3, 0, 0, 0, 0o100644, ⟨0, 0⟩⟩⟩ [9, 9] 5 (by decide) (by decide)
  refine ⟨n', h, ?_, hs⟩
  have h2 : fsoFile.Write ⟨[1, 2, 3], ⟨3, 0, 0, 0, 0o100644, ⟨0, 0⟩⟩⟩ [9, 9] ((5 : Nat) : Int)
      = some (⟨[1, 2, 3, 0, 0, 9, 9], ⟨7, 0, 0, 0, 0o100644, ⟨0, 0⟩⟩⟩, 2, Status.OK) := by
    decide
  rw [h2] at h
  injection h with h
  injection h with h
  rw [← h]

/-! ## C2: truncation -/

/-- C2: for every content and every `size ≤ 2*1024^3`, node-level `Truncate(size)` returns
`OK` and leaves a content of length `size`: the first `size` bytes of the old content
when `size ≤ len`, the old content followed by `size - len` zero bytes when
`size > len`; the size attribute equals `size`. -/
theorem Truncate_within_cap (n : fso) (size : Nat) (hcap : size ≤ sizeCap) :
    (n.Truncate size).2 = Status.OK ∧
    (n.Truncate size).1.data.length = size ∧
    (size ≤ n.data.length → (n.Truncate size).1.data = n.data.take size) ∧
    (size > n.data.length →
      (n.Truncate size).1.data = n.data ++ List.replicate (size - n.data.length) 0) ∧
    (n.Truncate size).1.info.Size = size := by
  by_cases h : size ≤ n.data.length
  · rw [Truncate_eq_of_cut n size hcap h]
    refine ⟨rfl, ?_, fun _ => rfl, fun h2 => absurd h (by omega), rfl⟩
    show (n.data.take size).length = size
    rw [List.length_take]
    exact Nat.min_eq_left h
  · rw [Truncate_eq_of_grow n size hcap (by omega)]
    refine ⟨rfl, ?_, fun h2 => absurd h2 h, fun _ => rfl, rfl⟩
    show (n.data ++ List.replicate (size - n.data.length) (0 : UInt8)).length = size
    rw [List.length_append, List.length_replicate]
    omega

/-- C2 at content `[1,2,3]`: cut to 2 bytes and grown to 5. -/
theorem Truncate_within_cap_witness :
    (2 ≤ sizeCap ∧ 5 ≤ sizeCap) ∧
    ((fso.mk [1, 2, 3] ⟨3, 0, 0, 0, 0o100644, ⟨0, 0⟩⟩).Truncate 2).1.data = [1, 2] ∧
    ((fso.mk [1, 2, 3] ⟨3, 0, 0, 0, 0o100644, ⟨0, 0⟩⟩).Truncate 5).1.data = [1, 2, 3, 0, 0] :=
  ⟨⟨by decide, by decide⟩,
    (Truncate_within_cap ⟨[1, 2, 3], ⟨3, 0, 0, 0, 0o100644, ⟨0, 0⟩⟩⟩ 2 (by decide)).2.2.1
      (by decide),
    (Truncate_within_cap ⟨[1, 2, 3], ⟨3, 0, 0, 0, 0o100644, ⟨0, 0⟩⟩⟩ 5 (by decide)).2.2.2.1
      (by decide)⟩

/-! ## C3: offsets and sizes beyond the cap -/

/-- C3: a `Write` whose offset is greater than `2*1024^3` fails with `EIO`, reports 0
bytes written and leaves the node (content and attributes) as it was; a `Truncate`
whose size is greater than `2*1024^3` fails with `EIO` and leaves the node as it was. -/
theorem over_cap_rejected (n : fso) (data : List UInt8) (off : Int) (size : Nat)
    (hoff : off > (sizeCap : Int)) (hsize : size > sizeCap) :
    fsoFile.Write n data off = some (n, 0, Status.EIO) ∧
    n.Truncate size = (n, Status.EIO) :=
  ⟨Write_eq_of_over_cap n data off hoff, Truncate_eq_of_over_cap n size hsize⟩

/-- C3 at content `[1,2,3]`, offset and size `2*1024^3 + 1`. -/
theorem over_cap_rejected_witness :
    (((sizeCap + 1 : Nat) : Int) > (sizeCap : Int) ∧ sizeCap + 1 > sizeCap) ∧
    fsoFile.Write ⟨[1, 2, 3], ⟨3, 0, 0, 0, 0o100644, ⟨0, 0⟩⟩⟩ [7] ((sizeCap + 1 : Nat) : Int)
      = some (⟨[1, 2, 3], ⟨3, 0, 0, 0, 0o100644, ⟨0, 0⟩⟩⟩, 0, Status.EIO) ∧
    (fso.mk [1, 2, 3] ⟨3, 0, 0, 0, 0o100644, ⟨0, 0⟩⟩).Truncate (sizeCap + 1)
      = (⟨[1, 2, 3], ⟨3, 0, 0, 0, 0o100644, ⟨0, 0⟩⟩⟩, Status.EIO) :=
  ⟨⟨by decide, by decide⟩,
    over_cap_rejected ⟨[1, 2, 3], ⟨3, 0, 0, 0, 0o100644, ⟨0, 0⟩⟩⟩ [7] _ (sizeCap + 1)
      (by decide) (by decide)⟩

/-! ## C4: the cap is a cap on the offset -/

/-- C4, as stated, fails: on an empty file a `Write` of one byte at offset `2*1024^3`
has a resulting size above the cap, yet it returns `(1, OK)` and leaves a content one
byte longer than the cap. -/
theorem Write_past_cap_counterexample :
    (sizeCap + ([1] : List UInt8).length > sizeCap) ∧
    ∃ n, fsoFile.Write (fso.mk [] ⟨0, 0, 0, 0, 0o100644, ⟨0, 0⟩⟩) [1] (sizeCap : Int)
        = some (n, 1, Status.OK) ∧
      n.data.length = sizeCap + 1 ∧ n.data.length > sizeCap := by
  have hg : sizeCap + ([1] : List UInt8).length
      > (fso.mk [] ⟨0, 0, 0, 0, 0o100644, ⟨0, 0⟩⟩).data.length := Nat.succ_pos _
  have hlen : ((([] : List UInt8) ++ List.replicate (sizeCap + 1 - 0) (0 : UInt8)).take sizeCap
      ++ [1]).length = sizeCap + 1 := by
    rw [List.length_append, length_take_padded _ _ _ (by omega)]
    rfl
  exact ⟨Nat.lt_succ_self _, _, Write_eq_of_grow _ _ sizeCap (le_refl _) hg, hlen,
    lt_of_lt_of_eq (Nat.lt_succ_self _) hlen.symm⟩

/-- C4, amended: `Write` fails with `EIO` exactly when the offset itself exceeds
`2*1024^3`, and then it reports 0 bytes and leaves the node as it was; a `Write` at an
offset `0 ≤ off ≤ 2*1024^3` succeeds whatever the length of the data: it returns
`(len(data) mod 2^32, OK)` and leaves a content of length `max(len(c), off + len(data))`,
which is at most `max(len(c), 2*1024^3 + len(data))`. So `Write` returns `EIO` if and
only if `off > 2*1024^3`, and `OK` if and only if `off ≤ 2*1024^3`. -/
theorem Write_cap_on_offset (n : fso) (data : List UInt8) (off : Nat) :
    (off > sizeCap → fsoFile.Write n data (off : Int) = some (n, 0, Status.EIO)) ∧
    (off ≤ sizeCap →
      ∃ n', fsoFile.Write n data (off : Int) = some (n', data.length % 2 ^ 32, Status.OK) ∧
        n'.data.length = max n.data.length (off + data.length) ∧
        n'.data.length ≤ max n.data.length (sizeCap + data.length)) ∧
    ((∃ n' cnt, fsoFile.Write n data (off : Int) = some (n', cnt, Status.EIO))
      ↔ off > sizeCap) ∧
    ((∃ n' cnt, fsoFile.Write n data (off : Int) = some (n', cnt, Status.OK))
      ↔ off ≤ sizeCap) := by
  have hover : off > sizeCap → fsoFile.Write n data (off : Int) = some (n, 0, Status.EIO) :=
    fun h => Write_eq_of_over_cap n data _ (by omega)
  have hwithin : off ≤ sizeCap →
      ∃ n', fsoFile.Write n data (off : Int) = some (n', data.length % 2 ^ 32, Status.OK) ∧
        n'.data.length = max n.data.length (off + data.length) ∧
        n'.data.length ≤ max n.data.length (sizeCap + data.length) := by
    intro hcap
    by_cases hg : off + data.length > n.data.length
    · have hl : ((n.data ++ List.replicate (off + data.length - n.data.length) (0 : UInt8)).take
          off ++ data).length = max n.data.length (off + data.length) := by
        rw [List.length_append, length_take_padded _ _ _ (by omega)]
        omega
      exact ⟨_, Write_eq_of_grow n data off hcap hg, hl, by rw [hl]; omega⟩
    · have hl : (n.data.take off ++ (data ++ n.data.drop (off + data.length))).length
          = max n.data.length (off + data.length) := by
        simp only [List.length_append, List.length_take, List.length_drop]
        omega
      exact ⟨_, Write_eq_of_within n data off hcap (by omega), hl, by rw [hl]; omega⟩
  refine ⟨hover, hwithin, ⟨?_, fun h => ⟨_, _, hover h⟩⟩, ⟨?_, fun h => ?_⟩⟩
  · intro hex
    obtain ⟨n', cnt, hw⟩ := hex
    by_cases hcap : off ≤ sizeCap
    · obtain ⟨m, hm, -, -⟩ := hwithin hcap
      rw [hm] at hw
      injection hw with hw
      injection hw with _ hw
      injection hw with _ hw
      exact Status.noConfusion hw
    · omega
  · intro hex
    obtain ⟨n', cnt, hw⟩ := hex
    by_cases hcap : off ≤ sizeCap
    · exact hcap
    · rw [hover (by omega)] at hw
      injection hw with hw
      injection hw with _ hw
      injection hw with _ hw
      exact Status.noConfusion hw
  · obtain ⟨m, hm, -, -⟩ := hwithin h
    exact ⟨_, _, hm⟩

/-- C4, amended, at content `[1,2,3]` and data `[9,9]`: offset 5 within the cap, and
offset `2*1024^3 + 1` beyond it. -/
theorem Write_cap_on_offset_witness :
    (5 ≤ sizeCap ∧ sizeCap + 1 > sizeCap) ∧
    (∃ n', fsoFile.Write ⟨[1, 2, 3], ⟨3, 0, 0, 0, 0o100644, ⟨0, 0⟩⟩⟩ [9, 9] ((5 : Nat) : Int)
        = some (n', ([9, 9] : List UInt8).length % 2 ^ 32, Status.OK) ∧
      n'.data.length
        = max ([1, 2, 3] : List UInt8).length (5 + ([9, 9] : List UInt8).length) ∧
      n'.data.length
        ≤ max ([1, 2, 3] : List UInt8).length (sizeCap + ([9, 9] : List UInt8).length)) ∧
    fsoFile.Write ⟨[1, 2, 3], ⟨3, 0, 0, 0, 0o100644, ⟨0, 0⟩⟩⟩ [9, 9] ((sizeCap + 1 : Nat) : Int)
      = some (⟨[1, 2, 3], ⟨3, 0, 0, 0, 0o100644, ⟨0, 0⟩⟩⟩, 0, Status.EIO) ∧
    fsoFile.Write ⟨[1, 2, 3], ⟨3, 0, 0, 0, 0o100644, ⟨0, 0⟩⟩⟩ [9, 9] ((5 : Nat) : Int)
      = some (⟨[1, 2, 3, 0, 0, 9, 9], ⟨7, 0, 0, 0, 0o100644, ⟨0, 0⟩⟩⟩, 2, Status.OK) :=
  ⟨⟨by decide, by decide⟩,
    (Write_cap_on_offset ⟨[1, 2, 3], ⟨3, 0, 0, 0, 0o100644, ⟨0, 0⟩⟩⟩ [9, 9] 5).2.1 (by decide),
    (Write_cap_on_offset ⟨[1, 2, 3], ⟨3, 0, 0, 0, 0o100644, ⟨0, 0⟩⟩⟩ [9, 9] (sizeCap + 1)).1
      (by decide),
    by decide⟩

/-! ## C6: `Chmod` -/

/-- C6, the code at a failing input: on a regular file of mode `0100644`, `Chmod(0600)`
leaves the mode `0107733`: the permission bits `0644` are flipped by `^ 07777`, not
cleared, before `0600` is or-ed in. The mode with its lower 12 bits cleared, or-ed with
`0600`, would be `0100600`. -/
theorem Chmod_flips_permission_bits :
    fso.Chmod ⟨[], ⟨0, 0, 0, 0, 0o100644, ⟨0, 0⟩⟩⟩ 0o600 1
      = (⟨[], ⟨0, 0, 0, 1, 0o107733, ⟨0, 0⟩⟩⟩, Status.OK) ∧
    (0o100644 / 0o10000 * 0o10000 ||| 0o600 = 0o100600) ∧
    (0o107733 ≠ 0o100600) ∧ (0o107733 % 0o10000 ≠ 0o600) := by
  decide

/-! ## C7: `Read` -/

/-- C7: for every content, every offset `off ≥ 0` and every caller buffer, `Read`
returns `OK` and the bytes of the content from `min(off, len)` to the end, and leaves
the node (content and attributes) as it was; at an offset `len + k` at or beyond the
end the result is empty, with status `OK`. -/
theorem Read_from_offset (f : fso) (buf : List UInt8) (off k : Nat) :
    fsoFile.Read f buf (off : Int)
      = some (f, f.data.drop (min off f.data.length), Status.OK) ∧
    fsoFile.Read f buf ((f.data.length + k : Nat) : Int) = some (f, [], Status.OK) := by
  refine ⟨Read_eq f buf off, ?_⟩
  rw [Read_eq f buf (f.data.length + k), Nat.min_eq_right (Nat.le_add_right _ _),
    List.drop_length]

/-! ## C8: a write inside the content -/

/-- C8, as stated, fails twice. A content of `2*1024^3 + 2` bytes and one byte written at
offset `2*1024^3 + 1`: the write lies inside the content, yet it fails with `EIO`. A
content of `2^32` bytes overwritten at offset 0 by `2^32` bytes: the count returned is
`uint32(len(data)) = 0`, not `len(data)`. -/
theorem Write_inside_counterexample :
    ((sizeCap + 1) + ([7] : List UInt8).length
        ≤ (List.replicate (sizeCap + 2) (0 : UInt8)).length ∧
      fsoFile.Write ⟨List.replicate (sizeCap + 2) 0, ⟨sizeCap + 2, 0, 0, 0, 0o100644, ⟨0, 0⟩⟩⟩
        [7] ((sizeCap + 1 : Nat) : Int)
        = some (⟨List.replicate (sizeCap + 2) 0, ⟨sizeCap + 2, 0, 0, 0, 0o100644, ⟨0, 0⟩⟩⟩,
            0, Status.EIO)) ∧
    (0 + (List.replicate (2 ^ 32) (0 : UInt8)).length
        ≤ (List.replicate (2 ^ 32) (0 : UInt8)).length ∧
      ∃ n cnt,
        fsoFile.Write ⟨List.replicate (2 ^ 32) 0, ⟨2 ^ 32, 0, 0, 0, 0o100644, ⟨0, 0⟩⟩⟩
          (List.replicate (2 ^ 32) (0 : UInt8)) ((0 : Nat) : Int) = some (n, cnt, Status.OK) ∧
        cnt = 0 ∧ cnt ≠ (List.replicate (2 ^ 32) (0 : UInt8)).length) := by
  refine ⟨⟨?_, Write_eq_of_over_cap _ _ _ (by omega)⟩, ⟨le_of_eq (Nat.zero_add _), _, _,
    Write_eq_of_within _ _ 0 (Nat.zero_le _) (le_of_eq (Nat.zero_add _)), ?_, ?_⟩⟩
  · rw [List.length_replicate]
    exact le_refl _
  · rw [List.length_replicate]
    exact Nat.mod_self _
  · rw [List.length_replicate, Nat.mod_self]
    decide

/-- C8, amended: for every content `c`, every offset `0 ≤ off ≤ 2*1024^3` and every data
with `off + len(data) ≤ len(c)`, `Write` returns `(len(data) mod 2^32, OK)`, which is
`(len(data), OK)` whenever `len(data) < 2^32`; the content keeps its length, the size
attribute is `len(c)` (so the attributes are unchanged when the size attribute was
`len(c)` before), the bytes in `[off, off+len(data))` are `data` and every byte outside
that range is unchanged. -/
theorem Write_inside (n : fso) (data : List UInt8) (off : Nat)
    (hcap : off ≤ sizeCap) (hin : off + data.length ≤ n.data.length) :
    ∃ n', fsoFile.Write n data (off : Int) = some (n', data.length % 2 ^ 32, Status.OK) ∧
      (data.length < 2 ^ 32 →
        fsoFile.Write n data (off : Int) = some (n', data.length, Status.OK)) ∧
      n'.data.length = n.data.length ∧
      n'.info.Size = n.data.length ∧
      (n.info.Size = n.data.length → n'.info = n.info) ∧
      (∀ j, j < data.length → n'.data[off + j]? = data[j]?) ∧
      (∀ i, i < off ∨ off + data.length ≤ i → n'.data[i]? = n.data[i]?) := by
  have hoff : off ≤ n.data.length := by omega
  refine ⟨_, Write_eq_of_within n data off hcap hin, ?_, ?_, rfl, ?_, ?_, ?_⟩
  · intro hlt
    rw [Write_eq_of_within n data off hcap hin, Nat.mod_eq_of_lt hlt]
  · show (n.data.take off ++ (data ++ n.data.drop (off + data.length))).length = _
    simp only [List.length_append, List.length_take, List.length_drop]
    omega
  · intro hs
    show { n.info with Size := n.data.length } = n.info
    rw [← hs]
  · intro j hj
    exact getElem?_patched_data _ _ _ _ hoff hj
  · intro i hi
    rcases hi with hi | hi
    · exact getElem?_patched_before _ _ _ _ hoff hi
    · exact getElem?_patched_after _ _ _ _ hoff hi

/-- C8, amended, at content `[1,2,3,4]`, offset 1 and data `[9,9]`. -/
theorem Write_inside_witness :
    (1 ≤ sizeCap ∧ 1 + ([9, 9] : List UInt8).length ≤ ([1, 2, 3, 4] : List UInt8).length) ∧
    fsoFile.Write ⟨[1, 2, 3, 4], ⟨4, 0, 0, 0, 0o100644, ⟨0, 0⟩⟩⟩ [9, 9] ((1 : Nat) : Int)
      = some (⟨[1, 9, 9, 4], ⟨4, 0, 0, 0, 0o100644, ⟨0, 0⟩⟩⟩, 2, Status.OK) ∧
    ∃ n', fsoFile.Write ⟨[1, 2, 3, 4], ⟨4, 0, 0, 0, 0o100644, ⟨0, 0⟩⟩⟩ [9, 9] ((1 : Nat) : Int)
      = some (n', 2, Status.OK) ∧ n'.data.length = 4 ∧ n'.info.Size = 4 :=
  ⟨⟨by decide, by decide⟩, by decide,
    (Write_inside ⟨[1, 2, 3, 4], ⟨4, 0, 0, 0, 0o100644, ⟨0, 0⟩⟩⟩ [9, 9] 1
      (by decide) (by decide)).imp
      fun _ h => ⟨h.2.1 (by decide), h.2.2.1, h.2.2.2.1⟩⟩

/-! ## C5: the size attribute and the content -/

/-- C5, the code at a failing input: `Symlink("l", "abc")` on the root of a fresh
filesystem returns `OK` and a node whose content is the 3 bytes of `abc` while its size
attribute is still 0: `Symlink` assigns `ch.data` and never `ch.info.Size`. -/
theorem Symlink_size_not_in_sync :
    (fso.Symlink (New 1000 1000 0 0 0).heap (New 1000 1000 0 0 0).Root "l" "abc" 5).2.2
      = Status.OK ∧
    ((fso.Symlink (New 1000 1000 0 0 0).heap (New 1000 1000 0 0 0).Root "l" "abc" 5).1.node
      (fso.Symlink (New 1000 1000 0 0 0).heap (New 1000 1000 0 0 0).Root "l" "abc" 5).2.1)
      = ⟨[97, 98, 99], ⟨0, 5, 5, 5, 0o120777, ⟨1000, 1000⟩⟩⟩ ∧
    ¬ SizeInSync
      ((fso.Symlink (New 1000 1000 0 0 0).heap (New 1000 1000 0 0 0).Root "l" "abc" 5).1.node
        (fso.Symlink (New 1000 1000 0 0 0).heap (New 1000 1000 0 0 0).Root "l" "abc" 5).2.1) := by
  decide

/-- The rest of C5 holds: `Write` keeps the size attribute in sync, on success (where it
is reassigned) and on failure (where the node is untouched). -/
theorem SizeInSync_Write (n n' : fso) (data : List UInt8) (off : Int) (cnt : Nat)
    (st : Status) (hw : fsoFile.Write n data off = some (n', cnt, st))
    (hs : SizeInSync n) : SizeInSync n' := by
  unfold fsoFile.Write at hw
  by_cases hov : off > (sizeCap : Int)
  · rw [if_pos hov] at hw
    injection hw with hw
    injection hw with h1 _
    rw [← h1]
    exact hs
  · rw [if_neg hov] at hw
    dsimp only at hw
    generalize copyAt _ off data = r at hw
    cases r with
    | none => exact Option.noConfusion hw
    | some d =>
      injection hw with hw
      injection hw with h1 _
      rw [← h1]
      unfold SizeInSync
      rfl

/-- The rest of C5 holds: `Truncate` keeps the size attribute in sync. -/
theorem SizeInSync_Truncate (n : fso) (size : Nat) (hs : SizeInSync n) :
    SizeInSync (n.Truncate size).1 := by
  unfold fso.Truncate
  by_cases hov : size > sizeCap
  · rw [if_pos hov]
    exact hs
  · rw [if_neg hov]
    unfold SizeInSync
    rfl

/-- The rest of C5 holds: `Chmod`, `Chown` and `Utimens` touch neither the content nor
the size attribute. -/
theorem SizeInSync_attributes (n : fso) (perms uid gid now : Nat) (atime mtime : Option Nat)
    (hs : SizeInSync n) :
    SizeInSync (n.Chmod perms now).1 ∧ SizeInSync (n.Chown uid gid now).1 ∧
    SizeInSync (n.Utimens atime mtime now).1 :=
  ⟨hs, hs, hs⟩

/-- The rest of C5 holds: the node that `newNode`, `Mkdir` and `Create` produce has no
content and size attribute 0. -/
theorem SizeInSync_created (h : Heap) (parent : Option Nat) (isdir : Bool) (n : Nat)
    (name : String) (flags mode now : Nat) :
    SizeInSync ((newNode h parent isdir now).1.node (newNode h parent isdir now).2) ∧
    SizeInSync ((fso.Mkdir h n name mode now).1.node (fso.Mkdir h n name mode now).2.1) ∧
    SizeInSync
      ((fso.Create h n name flags mode now).1.node (fso.Create h n name flags mode now).2.2.1)
    := by
  have hnew : ∀ p : Option Nat, ∀ b : Bool,
      ((newNode h p b now).1.node (newNode h p b now).2).data = [] ∧
      ((newNode h p b now).1.node (newNode h p b now).2).info.Size = 0 := by
    intro p b
    cases p with
    | none => simp [newNode, Heap.node, fso.zero, Attr.SetTimes]
    | some q => simp [newNode, Heap.node, fso.zero, Attr.SetTimes]
  refine ⟨?_, ?_, ?_⟩
  · unfold SizeInSync
    rw [(hnew parent isdir).1, (hnew parent isdir).2]
    rfl
  · show SizeInSync ((Inode.AddChild _ n name _).node h.next)
    rw [node_AddChild]
    show SizeInSync (Heap.node (Heap.set _ h.next _) h.next)
    rw [node_set, if_pos rfl]
    show (Heap.node (newNode h (some n) true now).1 (newNode h (some n) true now).2).info.Size
      = (Heap.node (newNode h (some n) true now).1 (newNode h (some n) true now).2).data.length
    rw [(hnew (some n) true).1, (hnew (some n) true).2]
    rfl
  · show SizeInSync ((Inode.AddChild _ n name _).node h.next)
    rw [node_AddChild]
    show SizeInSync (Heap.node (Heap.set _ h.next _) h.next)
    rw [node_set, if_pos rfl]
    show (Heap.node (newNode h (some n) false now).1 (newNode h (some n) false now).2).info.Size
      = (Heap.node (newNode h (some n) false now).1 (newNode h (some n) false now).2).data.length
    rw [(hnew (some n) false).1, (hnew (some n) false).2]
    rfl

/-- The rest of C5 holds: `Link`, `Rename`, `Unlink` and `Rmdir` change no node. -/
theorem node_tree_operations (h : Heap) (n d existing a : Nat) (name newName : String) :
    (fso.Link h n name existing).1.node a = h.node a ∧
    (fso.Rename h n name d newName).1.node a = h.node a ∧
    (fso.Unlink h n name).1.node a = h.node a ∧
    (fso.Rmdir h n name).1.node a = h.node a := by
  have hu : (fso.Unlink h n name).1.node a = h.node a := by
    cases hl : h.lookup n name with
    | none => rw [Unlink_eq_of_absent h n name hl]
    | some c =>
      rw [Unlink_eq_of_present h n name c hl]
      show (Heap.set h n _).node a = _
      rw [node_set]
      by_cases ha : a = n
      · rw [if_pos ha, ha]
        rfl
      · rw [if_neg ha]
  refine ⟨?_, ?_, hu, hu⟩
  · show (Inode.AddChild h n name _).node a = _
    rw [node_AddChild]
  · rw [Rename_eq]
    show (Inode.AddChild _ d newName _).node a = _
    rw [node_AddChild, node_RmChild, node_RmChild]

/-! ## C9: `Unlink` and `Rmdir` -/

/-- C9: for every directory `n` and every name, `Rmdir` does what `Unlink` does; the
status is `ENOENT` exactly when the name is absent from the children mapping, and then
nothing changes; otherwise the status is `OK`, the entry `name` is gone, every other
entry of every directory and every node is unchanged. The child is not inspected, so
this holds also when it is a directory that has entries. -/
theorem Unlink_Rmdir_remove_entry (h : Heap) (n : Nat) (name : String) :
    fso.Rmdir h n name = fso.Unlink h n name ∧
    ((fso.Unlink h n name).2 = Status.ENOENT ↔ h.lookup n name = none) ∧
    (h.lookup n name = none → fso.Unlink h n name = (h, Status.ENOENT)) ∧
    (∀ c, h.lookup n name = some c →
      (fso.Unlink h n name).2 = Status.OK ∧
      (fso.Unlink h n name).1.lookup n name = none ∧
      (∀ d k, (d, k) ≠ (n, name) → (fso.Unlink h n name).1.lookup d k = h.lookup d k) ∧
      (∀ a, (fso.Unlink h n name).1.node a = h.node a)) := by
  have hpresent : ∀ c, h.lookup n name = some c →
      (fso.Unlink h n name).2 = Status.OK ∧
      (fso.Unlink h n name).1.lookup n name = none ∧
      (∀ d k, (d, k) ≠ (n, name) → (fso.Unlink h n name).1.lookup d k = h.lookup d k) ∧
      (∀ a, (fso.Unlink h n name).1.node a = h.node a) := by
    intro c hc
    rw [Unlink_eq_of_present h n name c hc]
    refine ⟨rfl, ?_, ?_, ?_⟩
    · show (Heap.set h n _).lookup n name = none
      rw [lookup_set, if_pos rfl]
      show (if name = name then none else _) = none
      rw [if_pos rfl]
    · intro d k hdk
      show (Heap.set h n _).lookup d k = _
      rw [lookup_set]
      by_cases hd : d = n
      · have hk : k ≠ name := fun hk => hdk (by rw [hd, hk])
        rw [if_pos hd]
        show (if k = name then none else _) = _
        rw [if_neg hk, hd]
        rfl
      · rw [if_neg hd]
    · intro a
      show (Heap.set h n _).node a = _
      rw [node_set]
      by_cases ha : a = n
      · rw [if_pos ha, ha]
        rfl
      · rw [if_neg ha]
  refine ⟨rfl, ?_, Unlink_eq_of_absent h n name, hpresent⟩
  constructor
  · intro hst
    cases hl : h.lookup n name with
    | none => rfl
    | some c =>
      rw [(hpresent c hl).1] at hst
      exact Status.noConfusion hst
  · intro ha
    rw [Unlink_eq_of_absent h n name ha]

/-- C9 on the sample tree: `a` is a directory that holds `b`, and both `Unlink` and
`Rmdir` of `a` in the root return `OK` and remove the entry; `zz` is absent. -/
theorem Unlink_Rmdir_remove_entry_witness :
    (sampleTree.lookup 0 "a" = some 1 ∧ sampleTree.lookup 1 "b" = some 2 ∧
      sampleTree.lookup 0 "zz" = none) ∧
    (fso.Rmdir sampleTree 0 "a").2 = Status.OK ∧
    (fso.Rmdir sampleTree 0 "a").1.lookup 0 "a" = none ∧
    (fso.Rmdir sampleTree 0 "a").1.lookup 0 "f" = some 3 ∧
    fso.Unlink sampleTree 0 "zz" = (sampleTree, Status.ENOENT) :=
  have hw := Unlink_Rmdir_remove_entry sampleTree 0 "a"
  have hz := Unlink_Rmdir_remove_entry sampleTree 0 "zz"
  have ha : sampleTree.lookup 0 "a" = some 1 := by decide
  ⟨⟨ha, by decide, by decide⟩,
    hw.1 ▸ (hw.2.2.2 1 ha).1,
    hw.1 ▸ (hw.2.2.2 1 ha).2.1,
    hw.1 ▸ ((hw.2.2.2 1 ha).2.2.1 0 "f" (by decide)).trans (by decide),
    hz.2.2.1 (by decide)⟩

/-! ## C10: `Rename` onto an existing entry -/

/-- C10: when `oldName` names the node `c` in the directory `n`, `newName` names a node in
the directory `d` (the same directory or another), and the two entries are different,
`Rename(oldName, d, newName)` returns `OK`; afterwards a lookup of `oldName` in `n` finds
nothing, a lookup of `newName` in `d` yields `c`, and every other entry of every
directory, as well as every node, is unchanged. -/
theorem Rename_onto_existing (h : Heap) (n d : Nat) (oldName newName : String) (c x : Nat)
    (hold : h.lookup n oldName = some c) (_hnew : h.lookup d newName = some x)
    (hne : (n, oldName) ≠ (d, newName)) :
    (fso.Rename h n oldName d newName).2 = Status.OK ∧
    (fso.Rename h n oldName d newName).1.lookup n oldName = none ∧
    (fso.Rename h n oldName d newName).1.lookup d newName = some c ∧
    (∀ p k, (p, k) ≠ (n, oldName) → (p, k) ≠ (d, newName) →
      (fso.Rename h n oldName d newName).1.lookup p k = h.lookup p k) ∧
    (∀ a, (fso.Rename h n oldName d newName).1.node a = h.node a) := by
  rw [Rename_eq]
  refine ⟨rfl, ?_, ?_, ?_, ?_⟩
  · show (Inode.AddChild _ d newName _).lookup n oldName = none
    rw [lookup_AddChild]
    by_cases hd : n = d
    · have hk : oldName ≠ newName := fun hk => hne (by rw [hd, hk])
      rw [if_pos hd, if_neg hk, lookup_RmChild, if_neg (fun hc => hk hc.2), lookup_RmChild,
        if_pos ⟨hd.symm, rfl⟩]
    · rw [if_neg hd, lookup_RmChild, if_neg (fun hc => hd hc.1), lookup_RmChild,
        if_pos ⟨rfl, rfl⟩]
  · show (Inode.AddChild _ d newName _).lookup d newName = some c
    rw [lookup_AddChild, if_pos rfl, if_pos rfl, RmChild_snd]
    exact hold
  · intro p k h1 h2
    have h1' : ¬ (p = n ∧ k = oldName) := fun hc => h1 (by rw [hc.1, hc.2])
    have h2' : ¬ (p = d ∧ k = newName) := fun hc => h2 (by rw [hc.1, hc.2])
    show (Inode.AddChild _ d newName _).lookup p k = _
    rw [lookup_AddChild]
    by_cases hp : p = d
    · have hk : k ≠ newName := fun hk => h2' ⟨hp, hk⟩
      rw [if_pos hp, if_neg hk, lookup_RmChild, if_neg (fun hc => hk hc.2), lookup_RmChild,
        ← hp, if_neg h1']
    · rw [if_neg hp, lookup_RmChild, if_neg h2', lookup_RmChild, if_neg h1']
  · intro a
    show (Inode.AddChild _ d newName _).node a = _
    rw [node_AddChild, node_RmChild, node_RmChild]

/-- C10 on the sample tree: the file `f` of the root renamed onto the entry `b` of the
directory `a`. -/
theorem Rename_onto_existing_witness :
    (sampleTree.lookup 0 "f" = some 3 ∧ sampleTree.lookup 1 "b" = some 2 ∧
      ((0 : Nat), "f") ≠ ((1 : Nat), "b")) ∧
    (fso.Rename sampleTree 0 "f" 1 "b").2 = Status.OK ∧
    (fso.Rename sampleTree 0 "f" 1 "b").1.lookup 0 "f" = none ∧
    (fso.Rename sampleTree 0 "f" 1 "b").1.lookup 1 "b" = some 3 ∧
    (fso.Rename sampleTree 0 "f" 1 "b").1.lookup 0 "a" = some 1 :=
  have hw := Rename_onto_existing sampleTree 0 1 "f" "b" 3 2
    (by decide) (by decide) (by decide)
  ⟨⟨by decide, by decide, by decide⟩, hw.1, hw.2.1, hw.2.2.1,
    (hw.2.2.2.1 0 "a" (by decide) (by decide)).trans (by decide)⟩

/-! ## C11: `Rename` of an absent entry -/

/-- C11, the code at a failing input: on the sample tree the root has no entry `zz` and
the directory `a` has the entry `b`; `Rename("zz", a, "b")` from the root returns `OK`
and the entry `b` of `a` is gone afterwards: `RmChild(newName)` runs on the destination
whether or not `oldName` was found. -/
theorem Rename_absent_drops_destination :
    sampleTree.lookup 0 "zz" = none ∧ sampleTree.lookup 1 "b" = some 2 ∧
    (fso.Rename sampleTree 0 "zz" 1 "b").2 = Status.OK ∧
    (fso.Rename sampleTree 0 "zz" 1 "b").1.lookup 1 "b" = none ∧
    (fso.Rename sampleTree 0 "zz" 1 "b").1.lookup 1 "b" ≠ sampleTree.lookup 1 "b" := by
  decide

/-- What `Rename` of an absent entry does in general: the source mapping and every
node are unchanged, the destination loses its entry `newName` and is otherwise
unchanged. -/
theorem Rename_absent_lookup (h : Heap) (n d : Nat) (oldName newName : String)
    (habs : h.lookup n oldName = none) (p : Nat) (k : String) :
    (fso.Rename h n oldName d newName).1.lookup p k =
      if p = d ∧ k = newName then none else h.lookup p k := by
  rw [Rename_eq]
  show (Inode.AddChild _ d newName _).lookup p k = _
  rw [lookup_AddChild, RmChild_snd, habs, RmChild_eq_of_absent h n oldName habs]
  by_cases hp : p = d
  · rw [if_pos hp]
    by_cases hk : k = newName
    · rw [if_pos hk, if_pos ⟨hp, hk⟩]
    · rw [if_neg hk, if_neg (fun hc => hk hc.2), lookup_RmChild, if_neg (fun hc => hk hc.2), hp]
  · rw [if_neg hp, if_neg (fun hc => hp hc.1), lookup_RmChild, if_neg (fun hc => hp hc.1)]

/-! ## C12: `Link` -/

/-- The memory after `Link`. -/
theorem Link_eq (h : Heap) (n : Nat) (name : String) (e : Nat) :
    fso.Link h n name e = (Inode.AddChild h n name (some e), e, Status.OK) := rfl

/-- A write through the pointer `a` stores the result of `fsoFile.Write` at `a`. -/
theorem writeAt_eq (h : Heap) (a : Nat) (data : List UInt8) (off : Int) (x : fso)
    (cnt : Nat) (st : Status) (hw : fsoFile.Write (h.node a) data off = some (x, cnt, st)) :
    h.writeAt a data off = some (h.setNode a x, cnt, st) := by
  unfold Heap.writeAt
  rw [hw]

/-- A truncation through the pointer `a` stores the result of `fso.Truncate` at `a`. -/
theorem truncateAt_eq (h : Heap) (a : Nat) (size : Nat) :
    h.truncateAt a size =
      (h.setNode a ((h.node a).Truncate size).1, ((h.node a).Truncate size).2) := rfl

/-- C12: `Link(name, e)` in the directory `n` returns `e` itself with `OK`, allocates
nothing and changes no node, and a lookup of `name` in `n` yields `e`. When `e` is also
reached by another entry `k` of a directory `p`, both entries resolve to the same
address afterwards; so for the addresses `x` and `y` found through either of the two
paths, a `Write` or `Truncate` through `x` leaves at `y` exactly the node that the
operation produced, which is what `GetAttr` and `Read` through `y` then return, and both
paths still resolve to `e`. -/
theorem Link_shares_node (h : Heap) (n : Nat) (name : String) (e p : Nat) (k : String)
    (hp : h.lookup p k = some e) :
    (fso.Link h n name e).2 = (e, Status.OK) ∧
    (fso.Link h n name e).1.next = h.next ∧
    (∀ a, (fso.Link h n name e).1.node a = h.node a) ∧
    (fso.Link h n name e).1.lookup n name = some e ∧
    (fso.Link h n name e).1.lookup p k = some e ∧
    ∀ x y,
      ((fso.Link h n name e).1.lookup n name = some x ∨
        (fso.Link h n name e).1.lookup p k = some x) →
      ((fso.Link h n name e).1.lookup n name = some y ∨
        (fso.Link h n name e).1.lookup p k = some y) →
      (∀ data off x' cnt st, fsoFile.Write (h.node e) data off = some (x', cnt, st) →
        ∃ H, (fso.Link h n name e).1.writeAt x data off = some (H, cnt, st) ∧
          H.node y = x' ∧ H.getAttrAt y = (x'.info, Status.OK) ∧
          (∀ buf (r : Nat),
            H.readAt y buf (r : Int) = some (x'.data.drop (min r x'.data.length), Status.OK)) ∧
          H.lookup n name = some e ∧ H.lookup p k = some e) ∧
      (∀ size,
        ((fso.Link h n name e).1.truncateAt x size).2 = ((h.node e).Truncate size).2 ∧
        ((fso.Link h n name e).1.truncateAt x size).1.node y = ((h.node e).Truncate size).1 ∧
        ((fso.Link h n name e).1.truncateAt x size).1.getAttrAt y
          = (((h.node e).Truncate size).1.info, Status.OK) ∧
        ((fso.Link h n name e).1.truncateAt x size).1.lookup n name = some e ∧
        ((fso.Link h n name e).1.truncateAt x size).1.lookup p k = some e) := by
  have hnode : ∀ a, (fso.Link h n name e).1.node a = h.node a := by
    intro a
    rw [Link_eq]
    exact node_AddChild h n name (some e) a
  have hl1 : (fso.Link h n name e).1.lookup n name = some e := by
    rw [Link_eq]
    dsimp only
    rw [lookup_AddChild, if_pos rfl, if_pos rfl]
  have hl2 : (fso.Link h n name e).1.lookup p k = some e := by
    rw [Link_eq]
    dsimp only
    rw [lookup_AddChild]
    by_cases hpn : p = n
    · rw [if_pos hpn]
      by_cases hk : k = name
      · rw [if_pos hk]
      · rw [if_neg hk, ← hpn]
        exact hp
    · rw [if_neg hpn]
      exact hp
  refine ⟨rfl, rfl, hnode, hl1, hl2, ?_⟩
  intro x y hx hy
  have hxe : x = e := by
    rcases hx with hx | hx
    · rw [hl1] at hx
      exact (Option.some.inj hx).symm
    · rw [hl2] at hx
      exact (Option.some.inj hx).symm
  have hye : y = e := by
    rcases hy with hy | hy
    · rw [hl1] at hy
      exact (Option.some.inj hy).symm
    · rw [hl2] at hy
      exact (Option.some.inj hy).symm
  rw [hxe, hye]
  constructor
  · intro data off x' cnt st hw
    refine ⟨_, writeAt_eq _ e data off x' cnt st (by rw [hnode]; exact hw), ?_, ?_, ?_, ?_, ?_⟩
    · rw [node_setNode, if_pos rfl]
    · unfold Heap.getAttrAt
      rw [node_setNode, if_pos rfl]
      rfl
    · intro buf r
      unfold Heap.readAt
      rw [node_setNode, if_pos rfl, Read_eq]
    · rw [lookup_setNode]
      exact hl1
    · rw [lookup_setNode]
      exact hl2
  · intro size
    rw [truncateAt_eq, hnode]
    refine ⟨rfl, ?_, ?_, ?_, ?_⟩
    · exact (node_setNode _ e _ e).trans (if_pos rfl)
    · exact congrArg (fun z : fso => (z.info, Status.OK))
        ((node_setNode _ e _ e).trans (if_pos rfl))
    · exact (lookup_setNode _ e _ n name).trans hl1
    · exact (lookup_setNode _ e _ p k).trans hl2

/-- C12 on the sample tree: the file `f` of the root linked as `g` into the directory
`a`; a `Write` through `a/g` is what `GetAttr` and the lookup through `f` see. -/
theorem Link_shares_node_witness :
    sampleTree.lookup 0 "f" = some 3 ∧
    (fso.Link sampleTree 1 "g" 3).1.lookup 1 "g" = some 3 ∧
    (fso.Link sampleTree 1 "g" 3).1.lookup 0 "f" = some 3 ∧
    ∃ H, (fso.Link sampleTree 1 "g" 3).1.writeAt 3 [104, 105] 0 = some (H, 2, Status.OK) ∧
      H.node 3 = ⟨[104, 105], ⟨2, 3, 3, 3, 0o100644, ⟨1000, 1000⟩⟩⟩ ∧
      H.lookup 0 "f" = some 3 :=
  have hw := Link_shares_node sampleTree 1 "g" 3 0 "f" (by decide)
  have hx := (hw.2.2.2.2.2 3 3 (Or.inl hw.2.2.2.1) (Or.inr hw.2.2.2.2.1)).1 [104, 105] 0
    ⟨[104, 105], ⟨2, 3, 3, 3, 0o100644, ⟨1000, 1000⟩⟩⟩ 2 Status.OK (by decide)
  ⟨by decide, hw.2.2.2.1, hw.2.2.2.2.1,
    hx.imp fun _ hH => ⟨hH.1, hH.2.1, hH.2.2.2.2.2⟩⟩

/-! ## C13: creation followed by removal -/

/-- `Unlink` of an entry that is present: `OK`, and the mapping of the directory loses
that entry only. -/
theorem Unlink_lookup_of_present (H : Heap) (n : Nat) (name : String) (c : Nat)
    (hp : H.lookup n name = some c) :
    (fso.Unlink H n name).2 = Status.OK ∧
    ∀ k, (fso.Unlink H n name).1.lookup n k = if k = name then none else H.lookup n k := by
  rw [Unlink_eq_of_present H n name c hp]
  refine ⟨rfl, fun k => ?_⟩
  dsimp only
  rw [lookup_set, if_pos rfl]
  rfl

/-- C13: for every directory `n` of the memory and every name, `Mkdir`, `Create` or
`Symlink` of `name` followed by `Unlink` (or `Rmdir`, which is the same) of `name` makes
the removal return `OK` and leaves the children mapping of `n` equal to the mapping
before the creation with the entry `name` removed; when `name` was absent before, the
mapping is exactly the one before. -/
theorem create_then_remove (h : Heap) (n : Nat) (name content : String)
    (mode flags now : Nat) (hn : n < h.next) (H : Heap)
    (hH : H = (fso.Mkdir h n name mode now).1 ∨ H = (fso.Create h n name flags mode now).1 ∨
      H = (fso.Symlink h n name content now).1) :
    fso.Rmdir H n name = fso.Unlink H n name ∧
    (fso.Unlink H n name).2 = Status.OK ∧
    (fso.Unlink H n name).1.lookup n = (fun k => if k = name then none else h.lookup n k) ∧
    (h.lookup n name = none → (fso.Unlink H n name).1.lookup n = h.lookup n) := by
  have hne : n ≠ h.next := Nat.ne_of_lt hn
  have hlook : ∀ k, H.lookup n k = if k = name then some h.next else h.lookup n k := by
    intro k
    rcases hH with hH | hH | hH
    · rw [hH, Mkdir_lookup, if_pos rfl, if_neg hne]
    · rw [hH, Create_lookup, if_pos rfl, if_neg hne]
    · rw [hH, Symlink_lookup, if_pos rfl, if_neg hne]
  have hpres : H.lookup n name = some h.next := by
    rw [hlook, if_pos rfl]
  have hun := Unlink_lookup_of_present H n name h.next hpres
  have hmap : (fso.Unlink H n name).1.lookup n
      = (fun k => if k = name then none else h.lookup n k) := by
    funext k
    rw [hun.2 k, hlook k]
    by_cases hk : k = name
    · rw [if_pos hk, if_pos hk]
    · rw [if_neg hk, if_neg hk, if_neg hk]
  refine ⟨rfl, hun.1, hmap, ?_⟩
  intro habs
  rw [hmap]
  funext k
  by_cases hk : k = name
  · rw [if_pos hk, hk, habs]
  · rw [if_neg hk]

/-- C13 on the sample tree: `Mkdir("x")` in the root followed by `Rmdir("x")`, `x` being
absent before. -/
theorem create_then_remove_witness :
    (0 < sampleTree.next ∧ sampleTree.lookup 0 "x" = none) ∧
    (fso.Rmdir (fso.Mkdir sampleTree 0 "x" 0o755 7).1 0 "x").2 = Status.OK ∧
    (fso.Rmdir (fso.Mkdir sampleTree 0 "x" 0o755 7).1 0 "x").1.lookup 0 = sampleTree.lookup 0 :=
  have hw := create_then_remove sampleTree 0 "x" "" 0o755 0 7 (by decide)
    (fso.Mkdir sampleTree 0 "x" 0o755 7).1 (Or.inl rfl)
  ⟨⟨by decide, by decide⟩, hw.1 ▸ hw.2.1, hw.1 ▸ hw.2.2.2 (by decide)⟩

/-! ## C14: the operations of an open handle -/

/-- C14, as stated, fails: on a file with content `[1,2,3]` and mode `0100644` the
handle-level `Truncate(2)`, `Chmod(0600)`, `Chown(1,1)` and `Utimens(5,5)` return `ENOSYS`
and leave the node as it is, while the node-level operations return `OK` and change
it. -/
theorem handle_operations_counterexample :
    (fsoFile.Truncate ⟨[1, 2, 3], ⟨3, 0, 0, 0, 0o100644, ⟨0, 0⟩⟩⟩ 2).2 = Status.ENOSYS ∧
    (fso.Truncate ⟨[1, 2, 3], ⟨3, 0, 0, 0, 0o100644, ⟨0, 0⟩⟩⟩ 2).2 = Status.OK ∧
    (fsoFile.Truncate ⟨[1, 2, 3], ⟨3, 0, 0, 0, 0o100644, ⟨0, 0⟩⟩⟩ 2).1
      ≠ (fso.Truncate ⟨[1, 2, 3], ⟨3, 0, 0, 0, 0o100644, ⟨0, 0⟩⟩⟩ 2).1 ∧
    (fsoFile.Chmod ⟨[1, 2, 3], ⟨3, 0, 0, 0, 0o100644, ⟨0, 0⟩⟩⟩ 0o600).2
      ≠ (fso.Chmod ⟨[1, 2, 3], ⟨3, 0, 0, 0, 0o100644, ⟨0, 0⟩⟩⟩ 0o600 9).2 ∧
    (fsoFile.Chown ⟨[1, 2, 3], ⟨3, 0, 0, 0, 0o100644, ⟨0, 0⟩⟩⟩ 1 1).2
      ≠ (fso.Chown ⟨[1, 2, 3], ⟨3, 0, 0, 0, 0o100644, ⟨0, 0⟩⟩⟩ 1 1 9).2 ∧
    (fsoFile.Utimens ⟨[1, 2, 3], ⟨3, 0, 0, 0, 0o100644, ⟨0, 0⟩⟩⟩ (some 5) (some 5)).2
      ≠ (fso.Utimens ⟨[1, 2, 3], ⟨3, 0, 0, 0, 0o100644, ⟨0, 0⟩⟩⟩ (some 5) (some 5) 9).2 := by
  decide

/-- C14, amended: for every node and every open handle bound to it, the handle-level
`Truncate`, `Chmod`, `Chown` and `Utimens` return `ENOSYS` whatever their arguments and
leave the node as it is; handle-level `GetAttr` returns the same record and status as
node-level `GetAttr`, and neither changes the node. -/
theorem handle_operations (f : fso) (size perms uid gid : Nat) (atime mtime : Option Nat) :
    fsoFile.Truncate f size = (f, Status.ENOSYS) ∧
    fsoFile.Chmod f perms = (f, Status.ENOSYS) ∧
    fsoFile.Chown f uid gid = (f, Status.ENOSYS) ∧
    fsoFile.Utimens f atime mtime = (f, Status.ENOSYS) ∧
    fsoFile.GetAttr f = fso.GetAttr f ∧
    fso.GetAttr f = (f, f.info, Status.OK) :=
  ⟨rfl, rfl, rfl, rfl, rfl, rfl⟩

/-! ## C15: the node `Mkdir` and `Create` return -/

/-- C15: for every parent directory `n`, name and permission bits `perm`, `Mkdir` returns
`OK` and the new node, whose mode is `S_IFDIR | perm`; `Create` returns `OK`, a handle on
the new node and the new node, whose mode is `S_IFREG | perm`, with empty content and
size 0. In both cases the owner (uid and gid) is the parent's, a lookup of `name` in the
parent yields the new node, and `GetAttr` on the new node reports these values. -/
theorem Mkdir_Create_new_node (h : Heap) (n : Nat) (name : String) (perm flags now : Nat) :
    ((fso.Mkdir h n name perm now).2 = (h.next, Status.OK) ∧
      (fso.Mkdir h n name perm now).1.node h.next =
        ⟨[], ⟨0, now, now, now, S_IFDIR ||| perm, (h.node n).info.Owner⟩⟩ ∧
      (fso.Mkdir h n name perm now).1.lookup n name = some h.next ∧
      (fso.Mkdir h n name perm now).1.getAttrAt h.next =
        (⟨0, now, now, now, S_IFDIR ||| perm, (h.node n).info.Owner⟩, Status.OK)) ∧
    ((fso.Create h n name flags perm now).2 = (fso.newFile h.next, h.next, Status.OK) ∧
      (fso.Create h n name flags perm now).1.node h.next =
        ⟨[], ⟨0, now, now, now, S_IFREG ||| perm, (h.node n).info.Owner⟩⟩ ∧
      (fso.Create h n name flags perm now).1.lookup n name = some h.next ∧
      (fso.Create h n name flags perm now).1.getAttrAt h.next =
        (⟨0, now, now, now, S_IFREG ||| perm, (h.node n).info.Owner⟩, Status.OK)) := by
  have hm := Mkdir_node h n name perm now
  have hc := Create_node h n name flags perm now
  rw [Nat.lor_comm perm S_IFDIR] at hm
  rw [Nat.lor_comm perm S_IFREG] at hc
  refine ⟨⟨rfl, hm, ?_, ?_⟩, ⟨rfl, hc, ?_, ?_⟩⟩
  · rw [Mkdir_lookup, if_pos rfl, if_pos rfl]
  · unfold Heap.getAttrAt
    rw [hm]
    rfl
  · rw [Create_lookup, if_pos rfl, if_pos rfl]
  · unfold Heap.getAttrAt
    rw [hc]
    rfl

/-! ## C16: `Symlink` and `Readlink` -/

/-- C16: for every directory `n`, name and target text, `Symlink` returns `OK` and a new
node, registered under `name` in `n`, whose mode is `S_IFLNK | 0777`; `Readlink` on that
node returns `OK` and exactly the bytes of the target, and leaves the node as it is. -/
theorem Symlink_Readlink (h : Heap) (n : Nat) (name content : String) (now : Nat) :
    (fso.Symlink h n name content now).2 = (h.next, Status.OK) ∧
    (fso.Symlink h n name content now).1.lookup n name = some h.next ∧
    ((fso.Symlink h n name content now).1.node h.next).info.Mode = S_IFLNK ||| 0o777 ∧
    ((fso.Symlink h n name content now).1.node h.next).Readlink =
      ((fso.Symlink h n name content now).1.node h.next, content.toUTF8.data.toList,
        Status.OK) := by
  refine ⟨rfl, ?_, ?_, ?_⟩
  · rw [Symlink_lookup, if_pos rfl, if_pos rfl]
  · rw [Symlink_node]
  · unfold fso.Readlink
    rw [Symlink_node]

/-! ## C17: the root of a new filesystem -/

/-- The root node that `Init` builds. -/
theorem Init_root_node (uid gid getuid getgid : Int) (now : Nat) :
    (FS.Init uid gid getuid getgid now).Root = 0 ∧
    (FS.Init uid gid getuid getgid now).heap.next = 1 ∧
    (FS.Init uid gid getuid getgid now).heap.node 0 =
      ⟨[], ⟨0, now, now, now, S_IFDIR ||| 0o700,
        ⟨((if uid = -1 then getuid else uid) % 2 ^ 32).toNat,
          ((if gid = -1 then getgid else gid) % 2 ^ 32).toNat⟩⟩⟩ ∧
    ((FS.Init uid gid getuid getgid now).heap.cell 0).isDir = true ∧
    ∀ k, (FS.Init uid gid getuid getgid now).heap.lookup 0 k = none :=
  ⟨rfl, rfl, rfl, rfl, fun _ => rfl⟩

/-- C17, as stated, fails: `New(-2, -3)` stamps the root with `uint32(-2) = 4294967294`
and `uint32(-3) = 4294967293`, not with the given values. -/
theorem New_owner_counterexample :
    ((New (-2) (-3) 1000 1000 0).heap.node (New (-2) (-3) 1000 1000 0).Root).info.Owner
      = ⟨4294967294, 4294967293⟩ ∧
    ((4294967294 : Nat) : Int) ≠ -2 ∧ ((4294967293 : Nat) : Int) ≠ -3 := by
  decide

/-- C17, amended: for every uid and gid, `New(uid, gid)` is `Init(uid, gid)`, and its
`Root()` is the only node of the memory, a directory with mode `S_IFDIR | 0700`, no
children and no content. Its uid is `uint32(v)`, where `v` is the given uid, or the
process's uid when the given one is the sentinel `-1`; so it is `v` itself whenever
`0 ≤ v < 2^32`. Independently, the same holds for the gid. -/
theorem New_root (uid gid getuid getgid : Int) (now : Nat) :
    New uid gid getuid getgid now = FS.Init uid gid getuid getgid now ∧
    (New uid gid getuid getgid now).heap.next = (New uid gid getuid getgid now).Root + 1 ∧
    ((New uid gid getuid getgid now).heap.cell (New uid gid getuid getgid now).Root).isDir
      = true ∧
    ((New uid gid getuid getgid now).heap.node (New uid gid getuid getgid now).Root).info.Mode
      = S_IFDIR ||| 0o700 ∧
    (∀ k, (New uid gid getuid getgid now).heap.lookup (New uid gid getuid getgid now).Root k
      = none) ∧
    ((New uid gid getuid getgid now).heap.node (New uid gid getuid getgid now).Root).data
      = [] ∧
    ((New uid gid getuid getgid now).heap.node (New uid gid getuid getgid now).Root).info.Owner.Uid
      = ((if uid = -1 then getuid else uid) % 2 ^ 32).toNat ∧
    ((New uid gid getuid getgid now).heap.node (New uid gid getuid getgid now).Root).info.Owner.Gid
      = ((if gid = -1 then getgid else gid) % 2 ^ 32).toNat ∧
    (0 ≤ (if uid = -1 then getuid else uid) ∧ (if uid = -1 then getuid else uid) < 2 ^ 32 →
      (((New uid gid getuid getgid now).heap.node
          (New uid gid getuid getgid now).Root).info.Owner.Uid : Int)
        = (if uid = -1 then getuid else uid)) ∧
    (0 ≤ (if gid = -1 then getgid else gid) ∧ (if gid = -1 then getgid else gid) < 2 ^ 32 →
      (((New uid gid getuid getgid now).heap.node
          (New uid gid getuid getgid now).Root).info.Owner.Gid : Int)
        = (if gid = -1 then getgid else gid)) := by
  have hi := Init_root_node uid gid getuid getgid now
  have hN : New uid gid getuid getgid now = FS.Init uid gid getuid getgid now := rfl
  rw [hN, hi.1, hi.2.1, hi.2.2.1, hi.2.2.2.1]
  refine ⟨rfl, rfl, rfl, rfl, hi.2.2.2.2, rfl, rfl, rfl, ?_, ?_⟩
  · intro hu
    show ((((if uid = -1 then getuid else uid) % 2 ^ 32).toNat : Nat) : Int) = _
    rw [Int.emod_eq_of_lt hu.1 hu.2, Int.toNat_of_nonneg hu.1]
  · intro hg
    show ((((if gid = -1 then getgid else gid) % 2 ^ 32).toNat : Nat) : Int) = _
    rw [Int.emod_eq_of_lt hg.1 hg.2, Int.toNat_of_nonneg hg.1]

/-- C17, amended, at `New(1000, -1)` in a process of uid 5 and gid 6: the root's uid is
the given 1000 and its gid the process's 6. -/
theorem New_root_witness :
    (((0 : Int) ≤ (if (1000 : Int) = -1 then 5 else 1000) ∧
        (if (1000 : Int) = -1 then (5 : Int) else 1000) < 2 ^ 32) ∧
      ((0 : Int) ≤ (if (-1 : Int) = -1 then 6 else -1) ∧
        (if (-1 : Int) = -1 then (6 : Int) else -1) < 2 ^ 32)) ∧
    ((New 1000 (-1) 5 6 0).heap.node (New 1000 (-1) 5 6 0).Root).info.Owner = ⟨1000, 6⟩ ∧
    (((New 1000 (-1) 5 6 0).heap.node (New 1000 (-1) 5 6 0).Root).info.Owner.Uid : Int)
      = (if (1000 : Int) = -1 then 5 else 1000) ∧
    (((New 1000 (-1) 5 6 0).heap.node (New 1000 (-1) 5 6 0).Root).info.Owner.Gid : Int)
      = (if (-1 : Int) = -1 then 6 else -1) :=
  ⟨⟨by decide, by decide⟩, by decide,
    (New_root 1000 (-1) 5 6 0).2.2.2.2.2.2.2.2.1 (by decide),
    (New_root 1000 (-1) 5 6 0).2.2.2.2.2.2.2.2.2 (by decide)⟩

/-! ## C18: `Chmod` and the type bits -/

theorem testBit_high_of_le (p j : Nat) (hp : p ≤ 0o7777) : p.testBit (12 + j) = false := by
  apply Nat.testBit_lt_two_pow
  have h1 : (2 : Nat) ^ 12 ≤ 2 ^ (12 + j) :=
    Nat.pow_le_pow_right (by decide) (Nat.le_add_right _ _)
  have h2 : (2 : Nat) ^ 12 = 4096 := by decide
  omega

/-- C18: for every mode and every `perms ≤ 07777`, node-level `Chmod(perms)` returns `OK`
and keeps the type bits: every bit of the mode above the lower 12 is the same before
and after (the mode divided by `2^12` is unchanged); the owner (uid and gid), the size
attribute, the content, the access time and the modify time are unchanged. -/
theorem Chmod_keeps_type_bits (n : fso) (perms now : Nat) (hp : perms ≤ 0o7777) :
    (n.Chmod perms now).2 = Status.OK ∧
    (n.Chmod perms now).1.info.Mode / 0o10000 = n.info.Mode / 0o10000 ∧
    (∀ j, (n.Chmod perms now).1.info.Mode.testBit (12 + j) = n.info.Mode.testBit (12 + j)) ∧
    (n.Chmod perms now).1.info.Owner = n.info.Owner ∧
    (n.Chmod perms now).1.info.Size = n.info.Size ∧
    (n.Chmod perms now).1.data = n.data ∧
    (n.Chmod perms now).1.info.Atime = n.info.Atime ∧
    (n.Chmod perms now).1.info.Mtime = n.info.Mtime := by
  have hbit : ∀ j, ((n.info.Mode ^^^ 0o7777) ||| perms).testBit (12 + j)
      = n.info.Mode.testBit (12 + j) := by
    intro j
    rw [Nat.testBit_or, Nat.testBit_xor, testBit_high_of_le perms j hp,
      testBit_high_of_le 0o7777 j (le_refl _), Bool.xor_false, Bool.or_false]
  refine ⟨rfl, ?_, hbit, rfl, rfl, rfl, rfl, rfl⟩
  show ((n.info.Mode ^^^ 0o7777) ||| perms) / 0o10000 = n.info.Mode / 0o10000
  have h1 : (0o10000 : Nat) = 2 ^ 12 := by decide
  rw [h1, ← Nat.shiftRight_eq_div_pow, ← Nat.shiftRight_eq_div_pow]
  apply Nat.eq_of_testBit_eq
  intro j
  rw [Nat.testBit_shiftRight, Nat.testBit_shiftRight]
  exact hbit j

/-- C18 on a directory of mode `040700` and `Chmod(0600)`: the mode becomes `047677`, the
type bits are still those of a directory. -/
theorem Chmod_keeps_type_bits_witness :
    (0o600 ≤ 0o7777) ∧
    (fso.Chmod ⟨[], ⟨0, 1, 2, 3, 0o040700, ⟨7, 8⟩⟩⟩ 0o600 9).1
      = ⟨[], ⟨0, 1, 2, 9, 0o047677, ⟨7, 8⟩⟩⟩ ∧
    (fso.Chmod ⟨[], ⟨0, 1, 2, 3, 0o040700, ⟨7, 8⟩⟩⟩ 0o600 9).1.info.Mode / 0o10000
      = 0o040700 / 0o10000 :=
  ⟨by decide, by decide,
    (Chmod_keeps_type_bits ⟨[], ⟨0, 1, 2, 3, 0o040700, ⟨7, 8⟩⟩⟩ 0o600 9 (by decide)).2.1⟩

/-! ## C19: writing in pieces -/

theorem length_overwrite (s : List UInt8) (off : Nat) (d : List UInt8) :
    (overwrite s off d).length = max s.length (off + d.length) := by
  unfold overwrite
  rw [List.length_append, length_take_padded s _ off (by omega), List.length_append,
    List.length_drop]
  omega

theorem getElem?_overwrite (s : List UInt8) (off : Nat) (d : List UInt8) (i : Nat) :
    (overwrite s off d)[i]? =
      if i < off then (if i < s.length then s[i]? else some 0)
      else if i < off + d.length then d[i - off]? else s[i]? := by
  have hk : off ≤ s.length + (off + d.length - s.length) := by omega
  unfold overwrite
  rw [List.getElem?_append, length_take_padded s _ off hk]
  by_cases h1 : i < off
  · rw [if_pos h1, if_pos h1, List.getElem?_take_of_lt h1, List.getElem?_append]
    by_cases h2 : i < s.length
    · rw [if_pos h2, if_pos h2]
    · rw [if_neg h2, if_neg h2, List.getElem?_replicate_of_lt (by omega)]
  · rw [if_neg h1, if_neg h1, List.getElem?_append]
    by_cases h2 : i < off + d.length
    · rw [if_pos h2, if_pos (by omega)]
    · rw [if_neg h2, if_neg (by omega), List.getElem?_drop]
      congr 1
      omega

/-- A `Write` at an offset within the cap, in closed form. -/
theorem Write_eq_overwrite (n : fso) (d : List UInt8) (off : Nat) (hcap : off ≤ sizeCap) :
    fsoFile.Write n d (off : Int) =
      some ({ n with
          data := overwrite n.data off d
          info := { n.info with Size := max n.data.length (off + d.length) } },
        d.length % 2 ^ 32, Status.OK) := by
  by_cases hg : off + d.length > n.data.length
  · rw [Write_eq_of_grow n d off hcap hg, Nat.max_eq_right (by omega)]
    unfold overwrite
    rw [List.drop_eq_nil_of_le (by omega), List.append_nil]
  · rw [Write_eq_of_within n d off hcap (by omega), Nat.max_eq_left (by omega)]
    unfold overwrite
    rw [show off + d.length - n.data.length = 0 by omega, List.replicate_zero,
      List.append_nil]

theorem overwrite_overwrite (s : List UInt8) (off : Nat) (a b : List UInt8) :
    overwrite (overwrite s off a) (off + a.length) b = overwrite s off (a ++ b) := by
  apply List.ext_getElem?
  intro i
  rw [getElem?_overwrite, getElem?_overwrite, length_overwrite, getElem?_overwrite,
    List.length_append, List.getElem?_append]
  by_cases h1 : i < off
  · rw [if_pos (show i < off + a.length by omega), if_pos (show i < max s.length (off + a.length) by omega),
      if_pos h1, if_pos h1]
  · by_cases h2 : i < off + a.length
    · rw [if_pos h2, if_pos (show i < max s.length (off + a.length) by omega), if_neg h1,
        if_pos h2, if_neg h1, if_pos (show i < off + (a.length + b.length) by omega),
        if_pos (show i - off < a.length by omega)]
    · rw [if_neg h2, if_neg h1, if_neg h2, if_neg h1]
      by_cases h3 : i < off + a.length + b.length
      · rw [if_pos h3, if_pos (show i < off + (a.length + b.length) by omega),
          if_neg (show ¬ i - off < a.length by omega)]
        congr 1
        omega
      · rw [if_neg h3, if_neg (show ¬ i < off + (a.length + b.length) by omega)]

/-- C19, as stated, fails on the counts: on an empty file, `a` and `b` both `2^31` zero
bytes and offset 0 (so `off + len(a) ≤ 2*1024^3`), the two writes return `2^31` each,
which sum to `2^32`, while the single write of `a ++ b` returns
`uint32(2^32) = 0`. -/
theorem Write_pieces_count_counterexample :
    (0 + (List.replicate (2 ^ 31) (0 : UInt8)).length ≤ sizeCap) ∧
    ∃ n1 n2 n12 c1 c2 c12,
      fsoFile.Write (fso.mk [] ⟨0, 0, 0, 0, 0o100644, ⟨0, 0⟩⟩)
        (List.replicate (2 ^ 31) (0 : UInt8)) ((0 : Nat) : Int) = some (n1, c1, Status.OK) ∧
      fsoFile.Write n1 (List.replicate (2 ^ 31) (0 : UInt8))
        ((0 + (List.replicate (2 ^ 31) (0 : UInt8)).length : Nat) : Int)
        = some (n2, c2, Status.OK) ∧
      fsoFile.Write (fso.mk [] ⟨0, 0, 0, 0, 0o100644, ⟨0, 0⟩⟩)
        (List.replicate (2 ^ 31) (0 : UInt8) ++ List.replicate (2 ^ 31) (0 : UInt8))
        ((0 : Nat) : Int) = some (n12, c12, Status.OK) ∧
      c1 + c2 = 2 ^ 32 ∧ c12 = 0 ∧ c1 + c2 ≠ c12 := by
  have hl : (List.replicate (2 ^ 31) (0 : UInt8)).length = 2 ^ 31 := List.length_replicate _ _
  have hc : (2 : Nat) ^ 31 = sizeCap := by decide
  have h1 : 0 + (List.replicate (2 ^ 31) (0 : UInt8)).length ≤ sizeCap := by
    rw [hl, Nat.zero_add, hc]
  have e1 : (List.replicate (2 ^ 31) (0 : UInt8)).length % 2 ^ 32 = 2 ^ 31 := by
    rw [hl]
    decide
  have e2 : (List.replicate (2 ^ 31) (0 : UInt8) ++ List.replicate (2 ^ 31) (0 : UInt8)).length
      % 2 ^ 32 = 0 := by
    rw [List.length_append, hl]
    decide
  refine ⟨h1, _, _, _, _, _, _, Write_eq_overwrite _ _ 0 (Nat.zero_le _),
    Write_eq_overwrite _ _ _ h1, Write_eq_overwrite _ _ 0 (Nat.zero_le _), ?_, e2, ?_⟩
  · rw [e1]
    decide
  · rw [e1, e2]
    decide

/-- C19, amended: for every file, every offset `off ≥ 0` and every data `a` and `b` with
`off + len(a) ≤ 2*1024^3`, `Write(a, off)` followed by `Write(b, off + len(a))` leaves
the same node (content, size attribute and the other attributes) as the single
`Write(a ++ b, off)`; all three return `OK`, and the two counts sum to the count of the
single write modulo `2^32`, hence exactly whenever `len(a) + len(b) < 2^32`. -/
theorem Write_pieces (n : fso) (a b : List UInt8) (off : Nat)
    (hcap : off + a.length ≤ sizeCap) :
    ∃ n1 n2 c1 c2 c12,
      fsoFile.Write n a (off : Int) = some (n1, c1, Status.OK) ∧
      fsoFile.Write n1 b ((off + a.length : Nat) : Int) = some (n2, c2, Status.OK) ∧
      fsoFile.Write n (a ++ b) (off : Int) = some (n2, c12, Status.OK) ∧
      (c1 + c2) % 2 ^ 32 = c12 ∧
      (a.length + b.length < 2 ^ 32 → c1 + c2 = c12) := by
  have h1 := Write_eq_overwrite n a off (by omega)
  have h2 := Write_eq_overwrite
    { n with
      data := overwrite n.data off a
      info := { n.info with Size := max n.data.length (off + a.length) } }
    b (off + a.length) hcap
  have h3 := Write_eq_overwrite n (a ++ b) off (by omega)
  have hsame : (fso.mk (overwrite n.data off (a ++ b))
      { n.info with Size := max n.data.length (off + (a ++ b).length) }) =
      { data := overwrite (overwrite n.data off a) (off + a.length) b
        info := { n.info with
          Size := max (overwrite n.data off a).length (off + a.length + b.length) } } := by
    have hsz : max n.data.length (off + (a.length + b.length))
        = max (max n.data.length (off + a.length)) (off + a.length + b.length) := by
      omega
    rw [overwrite_overwrite, length_overwrite, List.length_append, hsz]
  refine ⟨_, _, _, _, (a ++ b).length % 2 ^ 32, h1, h2, ?_, ?_, ?_⟩
  · rw [h3, hsame]
  · rw [List.length_append]
    omega
  · intro hlt
    rw [List.length_append]
    omega

/-- C19, amended, on content `[1,2,3]`: `[7]` at offset 2 and then `[8,9]` at offset 3, and
`[7,8,9]` at offset 2. -/
theorem Write_pieces_witness :
    (2 + ([7] : List UInt8).length ≤ sizeCap) ∧
    fsoFile.Write ⟨[1, 2, 3], ⟨3, 0, 0, 0, 0o100644, ⟨0, 0⟩⟩⟩ ([7] ++ [8, 9]) ((2 : Nat) : Int)
      = some (⟨[1, 2, 7, 8, 9], ⟨5, 0, 0, 0, 0o100644, ⟨0, 0⟩⟩⟩, 3, Status.OK) ∧
    ∃ n1 n2 c1 c2 c12,
      fsoFile.Write ⟨[1, 2, 3], ⟨3, 0, 0, 0, 0o100644, ⟨0, 0⟩⟩⟩ [7] ((2 : Nat) : Int)
        = some (n1, c1, Status.OK) ∧
      fsoFile.Write n1 [8, 9] ((2 + ([7] : List UInt8).length : Nat) : Int)
        = some (n2, c2, Status.OK) ∧
      fsoFile.Write ⟨[1, 2, 3], ⟨3, 0, 0, 0, 0o100644, ⟨0, 0⟩⟩⟩ ([7] ++ [8, 9]) ((2 : Nat) : Int)
        = some (n2, c12, Status.OK) ∧
      c1 + c2 = c12 :=
  ⟨by decide, by decide,
    (Write_pieces ⟨[1, 2, 3], ⟨3, 0, 0, 0, 0o100644, ⟨0, 0⟩⟩⟩ [7] [8, 9] 2 (by decide)).imp
      fun _ h1 => h1.imp fun _ h2 => h2.imp fun _ h3 => h3.imp fun _ h4 => h4.imp fun _ h5 =>
        ⟨h5.1, h5.2.1, h5.2.2.1, h5.2.2.2.2 (by decide)⟩⟩

/-! ## C20: no index out of range -/

/-- `Write` in terms of the content it copies into. -/
theorem Write_eq_copyAt (n : fso) (data : List UInt8) (off : Int) :
    fsoFile.Write n data off =
      if off > (sizeCap : Int) then some (n, 0, Status.EIO)
      else
        match copyAt (fsoFile.writeTarget n data off) off data with
        | none => none
        | some d =>
          some ({ n with data := d, info := { n.info with Size := d.length } },
            data.length % 2 ^ 32, Status.OK) := rfl

/-- The content `Write` copies into is long enough for the data at the offset. -/
theorem length_writeTarget (n : fso) (data : List UInt8) (off : Nat) :
    off + data.length ≤ (fsoFile.writeTarget n data (off : Int)).length := by
  unfold fsoFile.writeTarget
  by_cases hg : off + data.length > n.data.length
  · have h2 : (off : Int) + (data.length : Int) > (n.data.length : Int) := by omega
    have h3 : ((off : Int) + (data.length : Int)).toNat = off + data.length := by omega
    rw [if_pos h2, h3, copy_makeBytes _ _ (by omega), List.length_append,
      List.length_replicate]
    omega
  · have h2 : ¬ ((off : Int) + (data.length : Int) > (n.data.length : Int)) := by omega
    rw [if_neg h2]
    omega

/-- The bounds check of `n.data[0:int(size)]` in `Truncate` never fails. -/
theorem TruncateChecked_eq (n : fso) (size : Nat) :
    n.TruncateChecked size = some (n.Truncate size) := by
  unfold fso.TruncateChecked fso.Truncate
  by_cases hov : size > sizeCap
  · rw [if_pos hov, if_pos hov]
  · rw [if_neg hov, if_neg hov]
    by_cases hg : size > n.data.length
    · simp only [if_pos hg]
    · simp only [if_neg hg]
      unfold sliceTo
      rw [if_pos (by omega)]

/-- C20: no content operation indexes out of range. For every content and offset
`off ≥ 0`, the clamped offset of `Read` is within the content and `Read` does not panic;
the content that `Write` copies into (the reallocated one or the old one) has length at
least `off + len(data)`, hence at least `off`, so the slice expression `n.data[off:]`
is in bounds and `Write` does not panic; and `Truncate` with the bounds check of
`n.data[0:size]` made explicit never fails it, the cut being taken only when
`size ≤ len`. -/
theorem content_operations_in_bounds (f : fso) (buf data : List UInt8) (off size : Nat) :
    (min off f.data.length ≤ f.data.length ∧
      fsoFile.Read f buf (off : Int)
        = some (f, f.data.drop (min off f.data.length), Status.OK)) ∧
    (off ≤ (fsoFile.writeTarget f data (off : Int)).length ∧
      (∃ d, copyAt (fsoFile.writeTarget f data (off : Int)) (off : Int) data = some d) ∧
      (∃ r, fsoFile.Write f data (off : Int) = some r)) ∧
    (f.TruncateChecked size = some (f.Truncate size) ∧
      (size ≤ sizeCap ∧ ¬ size > f.data.length →
        sliceTo f.data size = some (f.data.take size))) := by
  have hlen := length_writeTarget f data off
  have hcopy := copyAt_of_le (fsoFile.writeTarget f data (off : Int)) off data hlen
  refine ⟨⟨Nat.min_le_right _ _, Read_eq f buf off⟩, ⟨by omega, ⟨_, hcopy⟩, ?_⟩,
    ⟨TruncateChecked_eq f size, ?_⟩⟩
  · rw [Write_eq_copyAt, hcopy]
    by_cases hov : (off : Int) > (sizeCap : Int)
    · rw [if_pos hov]
      exact ⟨_, rfl⟩
    · rw [if_neg hov]
      exact ⟨_, rfl⟩
  · intro hs
    unfold sliceTo
    rw [if_pos (by omega)]

/-- C20 on content `[1,2,3]`: the cut of `Truncate(2)` is in bounds. -/
theorem content_operations_in_bounds_witness :
    (2 ≤ sizeCap ∧ ¬ 2 > ([1, 2, 3] : List UInt8).length) ∧
    sliceTo ([1, 2, 3] : List UInt8) 2 = some [1, 2] ∧
    fso.TruncateChecked ⟨[1, 2, 3], ⟨3, 0, 0, 0, 0o100644, ⟨0, 0⟩⟩⟩ 2
      = some (⟨[1, 2], ⟨2, 0, 0, 0, 0o100644, ⟨0, 0⟩⟩⟩, Status.OK) :=
  have hw := content_operations_in_bounds ⟨[1, 2, 3], ⟨3, 0, 0, 0, 0o100644, ⟨0, 0⟩⟩⟩ [] [] 0 2
  ⟨by decide, hw.2.2.2 (by decide), hw.2.2.1.trans (by decide)⟩

end Ramfs
